import Mathlib

/-!
# Sessionator `record` command: event and build ingestion

A shallow embedding of `self-host/sessionator/cmd/record.go` (the handlers
`writeEvent` and `writeBuild`) together with the operating-system and library
behaviour the handlers rely on.

* Go strings and byte slices are `String`s (each character standing for one byte).
* The filesystem is an explicit state `FS` threaded through the handlers.
* Library routines whose result depends only on their argument
  (`uuid.Validate`, `json.Valid`, `json.Unmarshal`, `json.Marshal`,
  `strconv.Quote`, the TOML encoder) are fields of `Env`.
-/

namespace Sessionator

/-! ## Lexical paths (`path/filepath` on a Unix system) -/

/-- The pieces of a path between separators: `a//b` gives `a`, the empty piece, `b`. -/
def splitSlash : List Char → List (List Char)
  | [] => [[]]
  | c :: cs =>
    if c = '/' then [] :: splitSlash cs
    else match splitSlash cs with
      | [] => [[c]]
      | h :: t => (c :: h) :: t

/-- Pieces joined with one separator between neighbours. -/
def joinSlash : List (List Char) → List Char
  | [] => []
  | [a] => a
  | a :: b :: t => a ++ '/' :: joinSlash (b :: t)

/-- The pieces of a path, as strings. -/
def comps (p : String) : List String := (splitSlash p.data).map String.mk

/-- Texts joined with a separator character between neighbours. -/
def sepJoinWith (sep : Char) : List String → String
  | [] => ""
  | [a] => a
  | a :: b :: t => a ++ String.mk [sep] ++ sepJoinWith sep (b :: t)

/-- Strings joined with `/` (`strings.Join(elem, "/")`). -/
def sepJoin (es : List String) : String := String.mk (joinSlash (es.map String.data))

/-- Whether a path starts at the root (`filepath.IsAbs`). -/
def rooted (p : String) : Bool :=
  match p.data with
  | c :: _ => decide (c = '/')
  | [] => false

/-- One piece applied to the directory reached so far, for a rooted path:
empty and `.` pieces stay, `..` goes up (staying at the root), a name goes down. -/
def step (stack : List String) (c : String) : List String :=
  if c = "" ∨ c = "." then stack
  else if c = ".." then stack.dropLast
  else stack ++ [c]

/-- One piece applied to a relative path under construction: the number of
leading `..` that could not be cancelled, and the names after them. -/
def stepRel (s : Nat × List String) (c : String) : Nat × List String :=
  if c = "" ∨ c = "." then s
  else if c = ".." then (if s.2 = [] then (s.1 + 1, []) else (s.1, s.2.dropLast))
  else (s.1, s.2 ++ [c])

/-- The shortest equivalent path, `filepath.Clean`. -/
def Clean (p : String) : String :=
  if p = "" then "."
  else if rooted p then "/" ++ sepJoin ((comps p).foldl step [])
  else
    let s := (comps p).foldl stepRel (0, [])
    let r := List.replicate s.1 ".." ++ s.2
    if r = [] then "." else sepJoin r

/-- Elements joined into one cleaned path, leading empty elements ignored, `filepath.Join`. -/
def Join (elem : List String) : String :=
  match elem.dropWhile (fun e => decide (e = "")) with
  | [] => ""
  | e :: es => Clean (sepJoin (e :: es))

/-- Everything up to and including the last separator. -/
def beforeLastSlash : List Char → List Char
  | [] => []
  | c :: cs =>
    let r := beforeLastSlash cs
    if c = '/' ∨ r ≠ [] then c :: r else []

/-- All but the last element of a path, cleaned, `filepath.Dir`. -/
def Dir (p : String) : String := Clean (String.mk (beforeLastSlash p.data))

/-! ## Filesystem -/

/-- What a path names: a directory or a regular file with its bytes. -/
inductive Node where
  | dir
  | file (data : String)
deriving DecidableEq, Repr

/-- A location: the names from the root down. -/
abbrev Loc := List String

/-- Filesystem state: the working directory of the process (`none` when
`os.Getwd` fails) and the nodes other than the root, latest entry first. -/
structure FS where
  cwd : Option String
  nodes : List (Loc × Node)
deriving DecidableEq, Repr

/-- First entry for a location. -/
def find (q : Loc) : List (Loc × Node) → Option Node
  | [] => none
  | (k, n) :: rest => if k = q then some n else find q rest

/-- The node at a location; the root is always a directory. -/
def lookup (fs : FS) (q : Loc) : Option Node :=
  if q = [] then some Node.dir else find q fs.nodes

/-- The location is a directory. -/
def isDir (fs : FS) (q : Loc) : Bool := decide (lookup fs q = some Node.dir)

/-- The location is a regular file. -/
def isFile (fs : FS) (q : Loc) : Bool :=
  match lookup fs q with
  | some (Node.file _) => true
  | _ => false

/-- The state with a node placed at a location. -/
def put (fs : FS) (q : Loc) (n : Node) : FS :=
  { fs with nodes := (q, n) :: fs.nodes.filter (fun kv => !decide (kv.1 = q)) }

/-- The location a path string names: rooted paths from the root, others from
the working directory; the empty path names nothing. -/
def resolve (fs : FS) (p : String) : Option Loc :=
  if p = "" then none
  else if rooted p then some ((comps p).foldl step [])
  else match fs.cwd with
    | none => none
    | some wd =>
      if rooted wd then some ((comps p).foldl step ((comps wd).foldl step [])) else none

/-- Absolute form of a path, `filepath.Abs`: fails only when the working
directory cannot be determined. -/
def Abs (fs : FS) (p : String) : Option String :=
  if rooted p then some (Clean p)
  else match fs.cwd with
    | none => none
    | some wd => some (Join [wd, p])

/-- Outcome of `os.Stat` as far as the handlers look at it. -/
inductive StatResult where
  | ok
  | notExist
  | otherErr
deriving DecidableEq, Repr

/-- Model of `os.Stat`: `ENOTDIR` when a regular file is on the way, `ENOENT`
(`fs.ErrNotExist`) when nothing is there. -/
def Stat (fs : FS) (p : String) : StatResult :=
  match resolve fs p with
  | none => StatResult.notExist
  | some q =>
    if q.inits.dropLast.any (isFile fs) then StatResult.otherErr
    else if (lookup fs q).isSome then StatResult.ok
    else StatResult.notExist

/-- Model of `os.MkdirAll`: every missing directory on the way is created; a
regular file on the way (or at the end) is an error and nothing is created. -/
def MkdirAll (fs : FS) (p : String) : Except String FS :=
  match resolve fs p with
  | none => Except.error ("mkdir " ++ p ++ ": no such file or directory")
  | some q =>
    if q.inits.any (isFile fs) then Except.error ("mkdir " ++ p ++ ": not a directory")
    else Except.ok (q.inits.foldl (fun f d => if isDir f d then f else put f d Node.dir) fs)

/-- Model of `os.Create` (also the open step of `os.WriteFile`): the directory
holding the file must exist, the path must not be a directory; the file is
created or truncated. Returns the new state and the open file. -/
def Create (fs : FS) (p : String) : Except String (FS × Loc) :=
  match resolve fs p with
  | none => Except.error ("open " ++ p ++ ": no such file or directory")
  | some q =>
    if isDir fs q then Except.error ("open " ++ p ++ ": is a directory")
    else if q.inits.dropLast.all (isDir fs) then Except.ok (put fs q (Node.file ""), q)
    else Except.error ("open " ++ p ++ ": no such file or directory")

/-- Bytes written through an open file. -/
def writeTo (fs : FS) (dst : Loc) (data : String) : FS := put fs dst (Node.file data)

/-- Model of `os.WriteFile`. -/
def WriteFile (fs : FS) (p : String) (data : String) : Except String FS :=
  match Create fs p with
  | Except.error e => Except.error e
  | Except.ok (fs1, dst) => Except.ok (writeTo fs1 dst data)

/-- The bytes of the regular file a path names. -/
def readFile (fs : FS) (p : String) : Option String :=
  match resolve fs p with
  | none => none
  | some q =>
    match lookup fs q with
    | some (Node.file d) => some d
    | _ => none

/-! ## Requests, responses and library routines -/

deriving instance DecidableEq for Except

/-- A JSON response value: a string, or a Go `error` value placed in the body. -/
inductive Val where
  | str (s : String)
  | err (s : String)
deriving DecidableEq, Repr

/-- What the handler sends back: the status code and the fields of the JSON body. -/
structure Response where
  status : Nat
  body : List (String × Val)
deriving DecidableEq, Repr

/-- Response `c.JSON(code, gin.H{"error": msg})`. -/
def errorJSON (code : Nat) (msg : String) : Response := ⟨code, [("error", Val.str msg)]⟩

/-- Response produced by the recovery handler of `gin.Default()` after a panic. -/
def panicResponse : Response := ⟨500, []⟩

/-- `http.StatusBadRequest`. -/
def StatusBadRequest : Nat := 400
/-- `http.StatusInternalServerError`. -/
def StatusInternalServerError : Nat := 500
/-- `http.StatusAccepted`. -/
def StatusAccepted : Nat := 202

/-- A `uuid.UUID`: sixteen bytes. -/
structure UUID where
  bytes : List Nat
  size : bytes.length = 16
  byte : ∀ b ∈ bytes, b < 256

/-- One hexadecimal digit, lower case. -/
def hexDigit (n : Nat) : Char :=
  match n with
  | 0 => '0' | 1 => '1' | 2 => '2' | 3 => '3' | 4 => '4' | 5 => '5' | 6 => '6' | 7 => '7'
  | 8 => '8' | 9 => '9' | 10 => 'a' | 11 => 'b' | 12 => 'c' | 13 => 'd' | 14 => 'e' | _ => 'f'

/-- Bytes in hexadecimal, two digits each (`hex.Encode`). -/
def hexEncode : List Nat → List Char
  | [] => []
  | b :: bs => hexDigit (b / 16 % 16) :: hexDigit (b % 16) :: hexEncode bs

/-- The form `xxxxxxxx-xxxx-xxxx-xxxx-xxxxxxxxxxxx` of a UUID (`UUID.String`). -/
def UUID.String (u : UUID) : String :=
  String.mk (hexEncode (u.bytes.take 4) ++ '-' :: hexEncode ((u.bytes.drop 4).take 2)
    ++ '-' :: hexEncode ((u.bytes.drop 6).take 2) ++ '-' :: hexEncode ((u.bytes.drop 8).take 2)
    ++ '-' :: hexEncode (u.bytes.drop 10))

/-- Modelled from the spec: the `Attribute` of `event.EventField` (package
`backend/api/event`), of which the handler reads the application identifier and version. -/
structure Attribute where
  AppUniqueID : String
  AppVersion : String

/-- Modelled from the spec: `event.Attachment`, identified by a UUID whose string form
names the blob. -/
structure Attachment where
  ID : UUID

/-- Modelled from the spec: `event.EventField`, a decoded event record with an
`Attribute` and zero or more `Attachments`. -/
structure EventField where
  Attribute : Attribute
  Attachments : List Attachment

/-- Modelled from the spec: `app.BuildInfo` (package `sessionator/app`), the build
metadata; `Size` is a `uint32`, as the conversion in `writeBuild` shows, and
`Type_` stands for the field `Type`. -/
structure BuildInfo where
  Size : Nat
  Type_ : String
deriving DecidableEq, Repr

/-- A file part of a multipart form (`multipart.FileHeader`): its bytes, and whether
opening it or reading from it fails. -/
structure FileHeader where
  content : String
  openFails : Bool
  readFails : Bool

/-- Size `FileHeader.Size` of the part. -/
def FileHeader.Size (h : FileHeader) : Nat := h.content.length

/-- Opening the part, `FileHeader.Open`. -/
def FileHeader.Open (h : FileHeader) : Option FileHeader := if h.openFails then none else some h

/-- Model of `io.Copy(dst, src)`: all bytes of the part reach the open file, or the
read fails before any byte does. -/
def Copy (fs : FS) (dst : Loc) (src : FileHeader) : Option FS :=
  if src.readFails then none else some (writeTo fs dst src.content)

/-- A parsed multipart form (`multipart.Form`): values and file parts by field name;
an entry of `File` may be a nil pointer. -/
structure Form where
  Value : String → List String
  File : String → List (Option FileHeader)

/-- An incoming request: the header values by name, and the outcome of parsing the
body as a multipart form (the error text on failure). -/
structure Request where
  Header : String → List String
  MultipartForm : Except String Form

/-- First value of a header, or the empty string (`Header.Get`). -/
def Request.HeaderGet (r : Request) (key : String) : String :=
  match r.Header key with
  | [] => ""
  | v :: _ => v

/-- First value of a form field, or the empty string (`Request.FormValue`). -/
def Form.FormValue (f : Form) (key : String) : String :=
  match f.Value key with
  | [] => ""
  | v :: _ => v

/-- Library routines and configuration the handlers use. -/
structure Env where
  /-- The flag `--path`. -/
  outputDir : String
  /-- Quoting `strconv.Quote`, the verb `%q`. -/
  quote : String → String
  /-- Whether `uuid.Validate` returns no error. -/
  uuidValidate : String → Bool
  /-- Function `json.Valid`. -/
  jsonValid : String → Bool
  /-- Function `json.Unmarshal` into an `event.EventField`. -/
  unmarshalEvent : String → Option EventField
  /-- Function `json.Marshal` on a slice of `json.RawMessage`. -/
  marshalRaw : List String → Option String
  /-- Encoding of a `BuildInfo` by `toml.NewEncoder(out).Encode`, or the error text. -/
  tomlEncode : BuildInfo → Except String String

/-- Why `strconv.Atoi` rejects its argument. -/
inductive NumError where
  | badSyntax
  | outOfRange
deriving DecidableEq, Repr

/-- Value of a decimal digit. -/
def digitVal (c : Char) : Option Nat :=
  if 48 ≤ c.toNat ∧ c.toNat ≤ 57 then some (c.toNat - 48) else none

/-- Value of a run of decimal digits, most significant first. -/
def parseDigits : List Char → Nat → Option Nat
  | [], n => some n
  | c :: cs, n =>
    match digitVal c with
    | none => none
    | some d => parseDigits cs (n * 10 + d)

/-- Model of `strconv.Atoi` with a 64-bit `int`: an optional sign, then one or more
decimal digits, the value within the range of `int`. -/
def Atoi (s : String) : Except NumError Int :=
  match s.data with
  | [] => Except.error NumError.badSyntax
  | c :: cs =>
    let neg := decide (c = '-')
    let ds := if c = '-' ∨ c = '+' then cs else c :: cs
    if ds = [] then Except.error NumError.badSyntax
    else match parseDigits ds 0 with
      | none => Except.error NumError.badSyntax
      | some n =>
        if neg then (if n ≤ 2 ^ 63 then Except.ok (-(n : Int)) else Except.error NumError.outOfRange)
        else (if n < 2 ^ 63 then Except.ok (n : Int) else Except.error NumError.outOfRange)

/-- Text of the error `strconv.Atoi` returns. -/
def NumError.text (env : Env) (s : String) : NumError → String
  | NumError.badSyntax => "strconv.Atoi: parsing " ++ env.quote s ++ ": invalid syntax"
  | NumError.outOfRange => "strconv.Atoi: parsing " ++ env.quote s ++ ": value out of range"

/-- Conversion `uint32(n)` of an `int`. -/
def toUint32 (n : Int) : Nat := (n % 4294967296).toNat

/-! ## `writeEvent` -/

/-- The header carrying the request identifier. -/
def reqIdKey : String := "msr-req-id"

/-- Closure `pathErr` of `writeEvent`. -/
def pathErr (env : Env) (dir : String) : String := "failed to acquire directory: " ++ env.quote dir

/-- Closure `parseErr` of `writeEvent`. -/
def parseErr (details : String) : String := "failed to parse multipart request: " ++ details

/-- The variables the decoding loop of `writeEvent` builds up. -/
structure Decoded where
  events : List EventField
  rawEvents : List String
  hasBlob : Bool
  blobCount : Nat

/-- The loop over `eventFields` (lines 102-132): each field is checked for emptiness,
JSON validity and decodability, then appended to `events` and `rawEvents`. -/
def decodeLoop (env : Env) : List String → Decoded → Except Response Decoded
  | [], d => Except.ok d
  | f :: rest, d =>
    if f = "" then
      Except.error (errorJSON StatusBadRequest "payload should not contain any empty event")
    else if env.jsonValid f = false then
      Except.error (errorJSON StatusBadRequest (parseErr "contains invalid json"))
    else match env.unmarshalEvent f with
      | none => Except.error (errorJSON StatusBadRequest (parseErr "failed to parse events json"))
      | some ev =>
        let d1 : Decoded :=
          if ev.Attachments.length > 0 then
            { d with hasBlob := true, blobCount := d.blobCount + ev.Attachments.length }
          else d
        decodeLoop env rest
          { d1 with events := d1.events ++ [ev], rawEvents := d1.rawEvents ++ [f] }

/-- Directory made if `os.Stat` reports that it does not exist (lines 149-156 and 174-181). -/
def ensureDir (env : Env) (fs : FS) (dir : String) : Except Response FS :=
  if Stat fs dir = StatResult.notExist then
    match MkdirAll fs dir with
    | Except.error _ => Except.error (errorJSON StatusInternalServerError (pathErr env dir))
    | Except.ok fs1 => Except.ok fs1
  else Except.ok fs

/-- Response for an attachment without a file part (lines 193-205). -/
def noFileField (env : Env) (key : String) : Response :=
  errorJSON StatusBadRequest ("no file field " ++ env.quote key ++ " in payload")

/-- Body of the inner loop (lines 189-233): one attachment is looked up among the
file parts and copied to its blob file. -/
def writeBlob (env : Env) (form : Form) (blobsDir : String) (fs : FS) (a : Attachment) :
    Except (Response × FS) FS :=
  let id := a.ID.String
  let key := "blob-" ++ id
  let blobFile := Join [blobsDir, id]
  match form.File key with
  | [] => Except.error (noFileField env key, fs)
  | none :: _ => Except.error (noFileField env key, fs)
  | some file :: _ =>
    match Create fs blobFile with
    | Except.error _ =>
      Except.error (⟨StatusInternalServerError, [("error", Val.err (pathErr env blobFile))]⟩, fs)
    | Except.ok (fs1, dst) =>
      match file.Open with
      | none =>
        Except.error (errorJSON StatusInternalServerError
          ("failed to open blob with id " ++ env.quote key), fs1)
      | some src =>
        match Copy fs1 dst src with
        | none =>
          Except.error (errorJSON StatusInternalServerError
            ("failed to write " ++ env.quote blobFile ++ " to disk"), fs1)
        | some fs2 => Except.ok fs2

/-- The inner loop over the attachments of one event (lines 188-234). -/
def writeBlobs (env : Env) (form : Form) (blobsDir : String) :
    List Attachment → FS → Except (Response × FS) FS
  | [], fs => Except.ok fs
  | a :: rest, fs =>
    match writeBlob env form blobsDir fs a with
    | Except.error e => Except.error e
    | Except.ok fs1 => writeBlobs env form blobsDir rest fs1

/-- The outer loop over the events (lines 184-235). -/
def writeEventBlobs (env : Env) (form : Form) (blobsDir : String) :
    List EventField → FS → Except (Response × FS) FS
  | [], fs => Except.ok fs
  | ev :: rest, fs =>
    if ev.Attachments.length < 1 then writeEventBlobs env form blobsDir rest fs
    else match writeBlobs env form blobsDir ev.Attachments fs with
      | Except.error e => Except.error e
      | Except.ok fs1 => writeEventBlobs env form blobsDir rest fs1

/-- Lines 137-240 of `writeEvent`: paths, directories, the batch file, the blobs. -/
def persistEvents (env : Env) (reqId : String) (form : Form) (d : Decoded) (fs : FS) :
    Response × FS :=
  match Abs fs env.outputDir with
  | none => (errorJSON StatusInternalServerError (pathErr env ""), fs)
  | some rootDir =>
    match d.events with
    | [] => (panicResponse, fs)
    | e0 :: _ =>
      let appDir := Join [rootDir, e0.Attribute.AppUniqueID, e0.Attribute.AppVersion]
      let eventFile := Join [appDir, reqId ++ ".json"]
      let blobsDir := Join [appDir, "blobs"]
      match ensureDir env fs appDir with
      | Except.error r => (r, fs)
      | Except.ok fs1 =>
        match env.marshalRaw d.rawEvents with
        | none => (errorJSON StatusInternalServerError "failed to encode events as json", fs1)
        | some jsonBytes =>
          match WriteFile fs1 eventFile jsonBytes with
          | Except.error _ =>
            (⟨StatusInternalServerError,
              [("error", Val.err ("failed to write events to " ++ env.quote eventFile))]⟩, fs1)
          | Except.ok fs2 =>
            match (if d.hasBlob then ensureDir env fs2 blobsDir else Except.ok fs2) with
            | Except.error r => (r, fs2)
            | Except.ok fs3 =>
              match writeEventBlobs env form blobsDir d.events fs3 with
              | Except.error e => e
              | Except.ok fs4 => (⟨StatusAccepted, [("ok", Val.str "accepted")]⟩, fs4)

/-- Handler `writeEvent`: the response and the filesystem it leaves. -/
def writeEvent (env : Env) (req : Request) (fs : FS) : Response × FS :=
  let reqId := req.HeaderGet reqIdKey
  if reqId = "" then
    (errorJSON StatusBadRequest (env.quote reqIdKey ++ " header is missing from request headers"), fs)
  else if env.uuidValidate reqId = false then
    (errorJSON StatusBadRequest (env.quote reqIdKey ++ " header value is not a valid UUID"), fs)
  else match req.MultipartForm with
    | Except.error _ => (errorJSON StatusInternalServerError (parseErr "multipart form"), fs)
    | Except.ok form =>
      let eventFields := form.Value "event"
      if eventFields.length < 1 then
        (errorJSON StatusBadRequest "payload should contain at least 1 event", fs)
      else match decodeLoop env eventFields ⟨[], [], false, 0⟩ with
        | Except.error r => (r, fs)
        | Except.ok d => persistEvents env reqId form d fs

/-! ## `writeBuild` -/

/-- Lines 259-284 of `writeBuild`: a mapping file that is present and not empty is
copied to `mapping.txt`, its directory made first. -/
def writeMapping (env : Env) (form : Form) (appUniqueID versionName : String) (fs : FS) :
    Except (Response × FS) FS :=
  match form.File "mapping_file" with
  | [] => Except.ok fs
  | none :: _ => Except.error (panicResponse, fs)
  | some header :: _ =>
    match header.Open with
    | none => Except.ok fs
    | some file =>
      if header.Size > 0 then
        let filePath := Join [env.outputDir, appUniqueID, versionName, "mapping.txt"]
        match MkdirAll fs (Dir filePath) with
        | Except.error e =>
          Except.error (errorJSON StatusInternalServerError ("failed to create mapping file: " ++ e), fs)
        | Except.ok fs1 =>
          match Create fs1 filePath with
          | Except.error e =>
            Except.error (errorJSON StatusInternalServerError ("failed to create mapping file: " ++ e), fs1)
          | Except.ok (fs2, out) =>
            match Copy fs2 out file with
            | none =>
              Except.error (errorJSON StatusInternalServerError
                ("failed to write mapping file: " ++ "read error"), fs2)
            | some fs3 => Except.ok fs3
      else Except.ok fs

/-- Handler `writeBuild`: the response and the filesystem it leaves. -/
def writeBuild (env : Env) (req : Request) (fs : FS) : Response × FS :=
  match req.MultipartForm with
  | Except.error e => (errorJSON StatusBadRequest ("unable to parse multipart form: " ++ e), fs)
  | Except.ok form =>
    let appUniqueID := form.FormValue "app_unique_id"
    let versionName := form.FormValue "version_name"
    if appUniqueID = "" then (errorJSON StatusBadRequest "app_unique_id is required", fs)
    else if versionName = "" then (errorJSON StatusBadRequest "version_name is required", fs)
    else match writeMapping env form appUniqueID versionName fs with
      | Except.error e => e
      | Except.ok fs1 =>
        let buildType := form.FormValue "build_type"
        match Atoi (form.FormValue "build_size") with
        | Except.error e =>
          (errorJSON StatusBadRequest
            ("failed to parse build_size: " ++ e.text env (form.FormValue "build_size")), fs1)
        | Except.ok buildSize =>
          let filePath := Join [env.outputDir, appUniqueID, versionName, "build.toml"]
          match Create fs1 filePath with
          | Except.error e =>
            (errorJSON StatusInternalServerError ("failed create build.toml file: " ++ e), fs1)
          | Except.ok (fs2, out) =>
            let buildInfo : BuildInfo := { Size := toUint32 buildSize, Type_ := buildType }
            match env.tomlEncode buildInfo with
            | Except.error e =>
              (errorJSON StatusInternalServerError ("failed to create build.toml file: " ++ e), fs2)
            | Except.ok enc => (⟨StatusAccepted, []⟩, writeTo fs2 out enc)

/-! ## The validation order, as the specification words it -/

/-- The first per-record check a field fails, as a response: emptiness, then JSON
validity, then decodability as an event. -/
def firstFailedCheck (env : Env) (f : String) : Option Response :=
  if f = "" then some (errorJSON StatusBadRequest "payload should not contain any empty event")
  else if env.jsonValid f = false then
    some (errorJSON StatusBadRequest (parseErr "contains invalid json"))
  else match env.unmarshalEvent f with
    | none => some (errorJSON StatusBadRequest (parseErr "failed to parse events json"))
    | some _ => none

/-- The failure the decoder is specified to report: header presence, header format,
multipart parseability, batch non-emptiness, then the records in submission order. -/
def expectedFailure (env : Env) (req : Request) : Option Response :=
  if req.HeaderGet reqIdKey = "" then
    some (errorJSON StatusBadRequest (env.quote reqIdKey ++ " header is missing from request headers"))
  else if env.uuidValidate (req.HeaderGet reqIdKey) = false then
    some (errorJSON StatusBadRequest (env.quote reqIdKey ++ " header value is not a valid UUID"))
  else match req.MultipartForm with
    | Except.error _ => some (errorJSON StatusInternalServerError (parseErr "multipart form"))
    | Except.ok form =>
      if form.Value "event" = [] then
        some (errorJSON StatusBadRequest "payload should contain at least 1 event")
      else (form.Value "event").findSome? (firstFailedCheck env)

/-- The request fails a check of the event decoder: the identifying header is absent
(or empty), it is not a valid UUID, the body is not a multipart form, there is no
`event` field, or some `event` field is empty, not valid JSON or not decodable. -/
def DecoderRejects (env : Env) (req : Request) : Prop :=
  req.HeaderGet reqIdKey = "" ∨
  env.uuidValidate (req.HeaderGet reqIdKey) = false ∨
  (∃ e, req.MultipartForm = Except.error e) ∨
  ∃ form, req.MultipartForm = Except.ok form ∧
    (form.Value "event" = [] ∨
      ∃ f ∈ form.Value "event", f = "" ∨ env.jsonValid f = false ∨ env.unmarshalEvent f = none)


/-! ## Sample data -/

/-- A request identifier in the standard UUID form. -/
def sampleReqId : String := "3fae0d6c-9b1e-4c6e-8f0a-5d2b7c9e1a34"

/-- The UUID whose sixteen bytes all equal `b`. -/
def uuidOf (b : Nat) (h : b < 256) : UUID :=
  ⟨List.replicate 16 b, List.length_replicate 16 b, fun x hx => by
    rw [List.eq_of_mem_replicate hx]; exact h⟩

/-- The attachment identifier `11111111-1111-1111-1111-111111111111`. -/
def sampleBlobA : UUID := uuidOf 17 (by decide)

/-- The attachment identifier `22222222-2222-2222-2222-222222222222`. -/
def sampleBlobB : UUID := uuidOf 34 (by decide)

/-- An event record of application `app1`, version `1.0`, without attachments. -/
def recPlain : String :=
  "\x7b\"attribute\":\x7b\"app_unique_id\":\"app1\",\"app_version\":\"1.0\"\x7d,\"attachments\":[]\x7d"

/-- An event record of application `app2`, version `2.0`, without attachments. -/
def recOther : String :=
  "\x7b\"attribute\":\x7b\"app_unique_id\":\"app2\",\"app_version\":\"2.0\"\x7d,\"attachments\":[]\x7d"

/-- An event record of `app1` declaring the attachment `sampleBlobA`. -/
def recBlobA : String :=
  "\x7b\"attribute\":\x7b\"app_unique_id\":\"app1\",\"app_version\":\"1.0\"\x7d,\"attachments\":[\x7b\"id\":\"11111111-1111-1111-1111-111111111111\"\x7d]\x7d"

/-- An event record of `app1` declaring the attachments `sampleBlobA` and `sampleBlobB`. -/
def recBlobAB : String :=
  "\x7b\"attribute\":\x7b\"app_unique_id\":\"app1\",\"app_version\":\"1.0\"\x7d,\"attachments\":[\x7b\"id\":\"11111111-1111-1111-1111-111111111111\"\x7d,\x7b\"id\":\"22222222-2222-2222-2222-222222222222\"\x7d]\x7d"

/-- Whether a character is a hexadecimal digit. -/
def isHex (c : Char) : Bool :=
  (48 ≤ c.toNat && c.toNat ≤ 57) || (97 ≤ c.toNat && c.toNat ≤ 102) || (65 ≤ c.toNat && c.toNat ≤ 70)

/-- The standard 36-character form of a UUID, which `uuid.Validate` accepts. -/
def standardUUID (s : String) : Bool :=
  decide (s.data.length = 36) &&
    (List.range 36).all (fun i =>
      if i = 8 ∨ i = 13 ∨ i = 18 ∨ i = 23 then decide (s.data.get? i = some '-')
      else match s.data.get? i with
        | some c => isHex c
        | none => false)

/-- Decimal digits of a number, least significant first, at most `fuel` of them. -/
def digitsRev : Nat → Nat → List Char
  | 0, _ => []
  | fuel + 1, n => Char.ofNat (48 + n % 10) :: (if n / 10 = 0 then [] else digitsRev fuel (n / 10))

/-- A `uint32` in decimal. -/
def decimal (n : Nat) : String := String.mk (digitsRev 10 n).reverse

/-- The library routines on the texts the examples use: the standard UUID form, the
sample records (with `[]` as a text that is valid JSON and not an event), quoting of
texts without special characters, and the output directory `--path` left at its default. -/
def sampleEnv : Env where
  outputDir := "../session-data"
  quote := fun s => "\"" ++ s ++ "\""
  uuidValidate := standardUUID
  jsonValid := fun s => decide (s = recPlain ∨ s = recOther ∨ s = recBlobA ∨ s = recBlobAB ∨ s = "[]")
  unmarshalEvent := fun s =>
    if s = recPlain then some ⟨⟨"app1", "1.0"⟩, []⟩
    else if s = recOther then some ⟨⟨"app2", "2.0"⟩, []⟩
    else if s = recBlobA then some ⟨⟨"app1", "1.0"⟩, [⟨sampleBlobA⟩]⟩
    else if s = recBlobAB then some ⟨⟨"app1", "1.0"⟩, [⟨sampleBlobA⟩, ⟨sampleBlobB⟩]⟩
    else none
  marshalRaw := fun rs => some ("[" ++ sepJoinWith ',' rs ++ "]")
  tomlEncode := fun b =>
    Except.ok ("Size = " ++ decimal b.Size ++ "\nType = \"" ++ b.Type_ ++ "\"\n")

/-- An empty filesystem with the process running in `/srv/sessionator`. -/
def emptyFS : FS := ⟨some "/srv/sessionator", []⟩

/-- A form with the given `event` fields and file parts. -/
def eventForm (events : List String) (files : List (String × FileHeader)) : Form where
  Value := fun k => if k = "event" then events else []
  File := fun k => (files.filter (fun kv => decide (kv.1 = k))).map (fun kv => some kv.2)

/-- An event request with the sample identifier in its header. -/
def eventRequest (events : List String) (files : List (String × FileHeader)) : Request where
  Header := fun k => if k = "msr-req-id" then [sampleReqId] else []
  MultipartForm := Except.ok (eventForm events files)

/-- The form of a build submission with the given text fields and, possibly, a mapping
file. -/
def buildForm (fields : List (String × String)) (mapping : Option String) : Form where
  Value := fun k => (fields.filter (fun kv => decide (kv.1 = k))).map (fun kv => kv.2)
  File := fun k =>
    match mapping with
    | some m => if k = "mapping_file" then [some ⟨m, false, false⟩] else []
    | none => []

/-- A build submission with the given text fields and, possibly, a mapping file. -/
def buildRequest (fields : List (String × String)) (mapping : Option String) : Request where
  Header := fun _ => []
  MultipartForm := Except.ok (buildForm fields mapping)

/-- An event request with a valid identifier whose body is not a multipart form. -/
def brokenBodyRequest : Request where
  Header := fun k => if k = "msr-req-id" then [sampleReqId] else []
  MultipartForm := Except.error "multipart: NextPart: EOF"

/-- Whether a build submission carries a mapping file that opens and is not empty, the
case in which `writeBuild` writes `mapping.txt`. -/
def hasMapping (form : Form) : Bool :=
  match form.File "mapping_file" with
  | some header :: _ =>
    (match header.Open with
     | some _ => decide (header.Size > 0)
     | none => false)
  | _ => false

/-- A piece that names a directory entry: not empty, not `.`, not `..`. -/
def IsName (c : String) : Prop := c ≠ "" ∧ c ≠ "." ∧ c ≠ ".."

/-- A piece without separator. -/
def SlashFree (c : String) : Prop := '/' ∉ c.data

/-- The application directory `<root>/<AppUniqueID>/<AppVersion>` of an event. -/
def appDirPath (rootDir : String) (e0 : EventField) : String :=
  Join [rootDir, e0.Attribute.AppUniqueID, e0.Attribute.AppVersion]

/-- The batch file `<root>/<AppUniqueID>/<AppVersion>/<RequestID>.json`. -/
def eventFilePath (rootDir : String) (e0 : EventField) (reqId : String) : String :=
  Join [appDirPath rootDir e0, reqId ++ ".json"]

/-- The directory `<root>/<AppUniqueID>/<AppVersion>/blobs`. -/
def blobsDirPath (rootDir : String) (e0 : EventField) : String :=
  Join [appDirPath rootDir e0, "blobs"]

/-- The blob file `<root>/<AppUniqueID>/<AppVersion>/blobs/<AttachmentID>`. -/
def blobFilePath (rootDir : String) (e0 : EventField) (id : UUID) : String :=
  Join [blobsDirPath rootDir e0, id.String]

/-- A JSON value, as `json.Unmarshal` produces it for an `interface{}`. -/
inductive JVal where
  | null
  | bool (b : Bool)
  | num (text : String)
  | str (s : String)
  | arr (items : List JVal)
  | obj (members : List (String × JVal))

/-- What `encoding/json` guarantees for `json.Marshal` on a slice of raw messages, with
`decode` the decoder of JSON texts into JSON values: if every message is valid JSON,
marshalling succeeds and its output decodes to the array of the values of the messages. -/
def MarshalContract (env : Env) (decode : String → Option JVal) : Prop :=
  ∀ rs : List String, (∀ r ∈ rs, env.jsonValid r = true) →
    ∃ out vs, env.marshalRaw rs = some out ∧ decode out = some (JVal.arr vs) ∧
      List.Forall₂ (fun r v => decode r = some v) rs vs

/-- The JSON value of `recPlain`. -/
def recordValue : JVal :=
  JVal.obj [("attribute", JVal.obj [("app_unique_id", JVal.str "app1"), ("app_version", JVal.str "1.0")]),
    ("attachments", JVal.arr [])]

/-- The text after a given leading text, if it starts with it. -/
def stripLead : List Char → List Char → Option (List Char)
  | [], s => some s
  | _ :: _, [] => none
  | c :: cs, d :: s => if c = d then stripLead cs s else none

/-- The number of copies of a record, separated by commas and closed by a bracket. -/
def countRecords (rec : List Char) : Nat → List Char → Option Nat
  | 0, _ => none
  | fuel + 1, s =>
    match stripLead rec s with
    | some [']'] => some 1
    | some (',' :: u) => (countRecords rec fuel u).map (fun n => n + 1)
    | _ => none

/-- The JSON decoder on the texts of the round-trip example: the record `recPlain` and
arrays of it. -/
def decodePlain (s : String) : Option JVal :=
  if s = recPlain then some recordValue
  else match s.data with
    | '[' :: rest =>
      if rest = [']'] then some (JVal.arr [])
      else (countRecords recPlain.data rest.length rest).map
        (fun n => JVal.arr (List.replicate n recordValue))
    | _ => none

/-- The sample library with `recPlain` as the only valid JSON text. -/
def plainEnv : Env :=
  { sampleEnv with jsonValid := fun s => decide (s = recPlain) }

/-- The multipart field that carries the bytes of an attachment. -/
def blobKey (a : Attachment) : String := "blob-" ++ a.ID.String

/-- Whether the form has a file part (a non-nil first entry) for an attachment. -/
def hasPart (form : Form) (a : Attachment) : Bool :=
  match form.File (blobKey a) with
  | some _ :: _ => true
  | _ => false

/-- The attachments declared by the events of a batch, in submission order. -/
def allAttachments (evs : List EventField) : List Attachment :=
  evs.flatMap (fun ev => ev.Attachments)

/-- The first declared attachment, in submission order, without a file part. -/
def firstMissing (form : Form) (as : List Attachment) : Option Attachment :=
  as.find? (fun a => !hasPart form a)

/-- The filesystem a run of the blob loops leaves, whether it ends in an error or not. -/
def stateOf : Except (Response × FS) FS → FS
  | Except.ok fs => fs
  | Except.error e => e.2

/-- The locations `writeEvent` may create or write for a batch: the application
directory and the `blobs` directory with the directories above them, the batch file, and
the blob files of the attachments that have a file part. -/
def Touched (form : Form) (fs : FS) (rootDir : String) (e0 : EventField) (reqId : String)
    (evs : List EventField) (q : Loc) : Prop :=
  (∃ q0, resolve fs (appDirPath rootDir e0) = some q0 ∧ q ∈ q0.inits) ∨
  (∃ q0, resolve fs (blobsDirPath rootDir e0) = some q0 ∧ q ∈ q0.inits) ∨
  resolve fs (eventFilePath rootDir e0 reqId) = some q ∨
  (∃ a ∈ allAttachments evs, hasPart form a = true ∧
    resolve fs (blobFilePath rootDir e0 a.ID) = some q)

/-- The filesystem `fs1` differs from `fs` at most at the locations in `S`, and has the
same working directory. -/
def Frame (fs fs1 : FS) (S : Loc → Prop) : Prop :=
  fs1.cwd = fs.cwd ∧ ∀ q, lookup fs1 q ≠ lookup fs q → S q

/-- A build submission whose mapping file part holds bytes and cannot be opened. -/
def unopenableMappingRequest (fields : List (String × String)) (mapping : String) : Request where
  Header := fun _ => []
  MultipartForm := Except.ok
    { Value := fun k => (fields.filter (fun kv => decide (kv.1 = k))).map (fun kv => kv.2)
      File := fun k => if k = "mapping_file" then [some ⟨mapping, true, false⟩] else [] }

/-- No filesystem failure stands in the way of the blobs that precede the first
attachment without a file part: at the location `blobs/<ID>` of each of them there is no
directory, and its file part can be opened and read. -/
def PartsReady (form : Form) (B : Loc) (fs : FS) (as : List Attachment) : Prop :=
  ∀ b ∈ as.takeWhile (fun x => hasPart form x),
    isDir fs (B ++ [b.ID.String]) = false ∧
    ∀ file rest, form.File (blobKey b) = some file :: rest →
      file.openFails = false ∧ file.readFails = false

/-! ## The decoding loop -/

theorem errorJSON_status (code : Nat) (msg : String) : (errorJSON code msg).status = code := rfl

theorem decodeLoop_ok_inv (env : Env) :
    ∀ (fields : List String) (d d1 : Decoded), decodeLoop env fields d = Except.ok d1 →
      ∃ evs, d1.events = d.events ++ evs ∧ d1.rawEvents = d.rawEvents ++ fields ∧
        List.Forall₂ (fun f ev => f ≠ "" ∧ env.jsonValid f = true ∧
          env.unmarshalEvent f = some ev) fields evs ∧
        d1.hasBlob = (d.hasBlob || evs.any (fun ev => decide (ev.Attachments.length > 0))) := by
  intro fields
  induction fields with
  | nil =>
    intro d d1 h
    simp only [decodeLoop, Except.ok.injEq] at h
    subst h
    exact ⟨[], by simp, by simp, List.Forall₂.nil, by simp⟩
  | cons f rest ih =>
    intro d d1 h
    unfold decodeLoop at h
    split_ifs at h with h1 h2
    cases hu : env.unmarshalEvent f with
    | none => simp [hu] at h
    | some ev =>
      simp only [hu] at h
      obtain ⟨evs, he, hr, hf, hb⟩ := ih _ _ h
      refine ⟨ev :: evs, ?_, ?_, ?_, ?_⟩
      · rw [he]; split_ifs <;> simp
      · rw [hr]; split_ifs <;> simp
      · refine List.Forall₂.cons ⟨h1, ?_, hu⟩ hf
        simpa using h2
      · rw [hb]
        by_cases hl : ev.Attachments.length > 0
        · simp [hl]
        · simp [hl]

theorem decodeLoop_error_of_findSome (env : Env) :
    ∀ (fields : List String) (d : Decoded) (r : Response),
      fields.findSome? (firstFailedCheck env) = some r → decodeLoop env fields d = Except.error r := by
  intro fields
  induction fields with
  | nil => intro d r h; simp at h
  | cons f rest ih =>
    intro d r h
    unfold decodeLoop
    simp only [List.findSome?, firstFailedCheck] at h
    by_cases h1 : f = ""
    · simp [h1] at h ⊢; rw [h]
    · by_cases h2 : env.jsonValid f = false
      · simp [h1, h2] at h ⊢; rw [h]
      · cases hu : env.unmarshalEvent f with
        | none => simp [h1, h2, hu] at h ⊢; rw [h]
        | some ev =>
          simp only [h1, h2, hu, if_false] at h ⊢
          exact ih _ _ h

theorem firstFailedCheck_status (env : Env) (f : String) (r : Response)
    (h : firstFailedCheck env f = some r) : r.status = StatusBadRequest := by
  unfold firstFailedCheck at h
  split_ifs at h with h1 h2
  · cases h; rfl
  · cases h; rfl
  · cases hu : env.unmarshalEvent f with
    | none => simp only [hu, Option.some.injEq] at h; subst h; rfl
    | some ev => simp [hu] at h

theorem firstFailedCheck_of_bad (env : Env) (f : String)
    (h : f = "" ∨ env.jsonValid f = false ∨ env.unmarshalEvent f = none) :
    ∃ r, firstFailedCheck env f = some r := by
  unfold firstFailedCheck
  by_cases h1 : f = ""
  · simp [h1]
  · by_cases h2 : env.jsonValid f = false
    · simp [h1, h2]
    · rcases h with h | h | h
      · exact absurd h h1
      · exact absurd h h2
      · simp [h1, h2, h]

theorem findSome_of_bad (env : Env) :
    ∀ (fields : List String), (∃ f ∈ fields, ∃ r, firstFailedCheck env f = some r) →
      ∃ r, fields.findSome? (firstFailedCheck env) = some r := by
  intro fields
  induction fields with
  | nil => rintro ⟨f, hf, _⟩; simp at hf
  | cons g rest ih =>
    rintro ⟨f, hf, r, hr⟩
    cases hg : firstFailedCheck env g with
    | some r0 => exact ⟨r0, by simp [List.findSome?, hg]⟩
    | none =>
      have hfr : f ∈ rest := by
        rcases List.mem_cons.mp hf with h | h
        · subst h; rw [hg] at hr; cases hr
        · exact h
      obtain ⟨r1, h1⟩ := ih ⟨f, hfr, r, hr⟩
      exact ⟨r1, by simp [List.findSome?, hg, h1]⟩

theorem findSome_status (env : Env) (fields : List String) (r : Response)
    (h : fields.findSome? (firstFailedCheck env) = some r) : r.status = StatusBadRequest := by
  obtain ⟨f, _, hf⟩ := List.exists_of_findSome?_eq_some h
  exact firstFailedCheck_status env f r hf

theorem decodeLoop_ok_of_findSome_none (env : Env) :
    ∀ (fields : List String) (d : Decoded),
      fields.findSome? (firstFailedCheck env) = none → ∃ d1, decodeLoop env fields d = Except.ok d1 := by
  intro fields
  induction fields with
  | nil => intro d _; exact ⟨d, rfl⟩
  | cons f rest ih =>
    intro d h
    unfold decodeLoop
    simp only [List.findSome?, firstFailedCheck] at h
    by_cases h1 : f = ""
    · simp [h1] at h
    · by_cases h2 : env.jsonValid f = false
      · simp [h1, h2] at h
      · cases hu : env.unmarshalEvent f with
        | none => simp [h1, h2, hu] at h
        | some ev =>
          simp only [h1, h2, hu, if_false] at h ⊢
          exact ih _ h

theorem findSome_index (env : Env) :
    ∀ (fields : List String) (i : Nat) (f : String) (r : Response),
      fields[i]? = some f →
      (∀ j g, j < i → fields[j]? = some g → firstFailedCheck env g = none) →
      firstFailedCheck env f = some r →
      fields.findSome? (firstFailedCheck env) = some r := by
  intro fields
  induction fields with
  | nil => intro i f r h; simp at h
  | cons g rest ih =>
    intro i f r hi hbefore hf
    cases i with
    | zero =>
      simp only [List.getElem?_cons_zero, Option.some.injEq] at hi
      subst hi
      simp [List.findSome?, hf]
    | succ k =>
      have hg : firstFailedCheck env g = none := hbefore 0 g (Nat.succ_pos k) (by simp)
      simp only [List.getElem?_cons_succ] at hi
      have := ih k f r hi (fun j x hj hx => hbefore (j + 1) x (Nat.succ_lt_succ hj) (by simpa using hx)) hf
      simp [List.findSome?, hg, this]

theorem forall₂_getElem {α β : Type} (R : α → β → Prop) :
    ∀ (xs : List α) (ys : List β), List.Forall₂ R xs ys →
      ∀ (i : Nat) (a : α) (b : β), xs[i]? = some a → ys[i]? = some b → R a b := by
  intro xs ys h
  induction h with
  | nil => intro i a b ha; simp at ha
  | cons hab _ ih =>
    intro i a b ha hb
    cases i with
    | zero =>
      simp only [List.getElem?_cons_zero, Option.some.injEq] at ha hb
      subst ha; subst hb; exact hab
    | succ k =>
      simp only [List.getElem?_cons_succ] at ha hb
      exact ih k a b ha hb

theorem writeEvent_of_expectedFailure (env : Env) (req : Request) (fs : FS) (r : Response)
    (h : expectedFailure env req = some r) : writeEvent env req fs = (r, fs) := by
  unfold expectedFailure at h
  unfold writeEvent
  by_cases h1 : req.HeaderGet reqIdKey = ""
  · simp only [h1, if_true, Option.some.injEq] at h ⊢
    rw [← h]
  · cases h2 : env.uuidValidate (req.HeaderGet reqIdKey) with
    | false =>
      simp only [h1, h2, if_true, if_false, Option.some.injEq] at h ⊢
      rw [← h]
    | true =>
      cases hm : req.MultipartForm with
      | error e =>
        simp only [h1, h2, hm, if_false, Bool.true_eq_false, Option.some.injEq] at h ⊢
        rw [← h]
      | ok form =>
        simp only [h1, h2, hm, if_false, Bool.true_eq_false] at h ⊢
        by_cases h3 : form.Value "event" = []
        · simp only [h3, if_true, Option.some.injEq] at h
          simp [h3, ← h]
        · simp only [h3, if_false] at h
          have hlen : ¬ (form.Value "event").length < 1 := by
            cases hv : form.Value "event" with
            | nil => exact absurd hv h3
            | cons a l => simp
          simp only [hlen, if_false]
          rw [decodeLoop_error_of_findSome env _ _ r h]

theorem writeEvent_of_no_expectedFailure (env : Env) (req : Request)
    (h : expectedFailure env req = none) :
    ∃ form d, req.MultipartForm = Except.ok form ∧
      decodeLoop env (form.Value "event") ⟨[], [], false, 0⟩ = Except.ok d ∧
      ∀ fs, writeEvent env req fs = persistEvents env (req.HeaderGet reqIdKey) form d fs := by
  unfold expectedFailure at h
  by_cases h1 : req.HeaderGet reqIdKey = ""
  · simp [h1] at h
  · cases h2 : env.uuidValidate (req.HeaderGet reqIdKey) with
    | false => simp [h1, h2] at h
    | true =>
      cases hm : req.MultipartForm with
      | error e => simp [h1, h2, hm] at h
      | ok form =>
        simp only [h1, h2, hm, if_false, Bool.true_eq_false] at h
        by_cases h3 : form.Value "event" = []
        · simp [h3] at h
        · simp only [h3, if_false] at h
          have hlen : ¬ (form.Value "event").length < 1 := by
            cases hv : form.Value "event" with
            | nil => exact absurd hv h3
            | cons a l => simp
          obtain ⟨d, hd⟩ := decodeLoop_ok_of_findSome_none env _ ⟨[], [], false, 0⟩ h
          refine ⟨form, d, rfl, hd, fun fs => ?_⟩
          unfold writeEvent
          simp only [h1, h2, hm, hlen, if_false, hd, Bool.true_eq_false]

/-- C10: index safety in `writeEvent`. For every request that passes all decoder
checks, the handler continues with the path computation, `events` and `rawEvents`
each have as many elements as there are submitted `event` fields, which is at least
one, so `events[0]` exists, `rawEvents` is the list of submitted fields, and the
record at each index of `rawEvents` decodes to the event at that index of `events`. -/
theorem writeEvent_index_safety (env : Env) (req : Request) (form : Form) (d : Decoded)
    (hid : req.HeaderGet reqIdKey ≠ "")
    (huuid : env.uuidValidate (req.HeaderGet reqIdKey) = true)
    (hform : req.MultipartForm = Except.ok form)
    (hlen : ¬ (form.Value "event").length < 1)
    (hdec : decodeLoop env (form.Value "event") ⟨[], [], false, 0⟩ = Except.ok d) :
    (∀ fs, writeEvent env req fs = persistEvents env (req.HeaderGet reqIdKey) form d fs) ∧
    d.events.length = (form.Value "event").length ∧
    d.rawEvents.length = (form.Value "event").length ∧
    1 ≤ (form.Value "event").length ∧
    (∃ e0 rest, d.events = e0 :: rest) ∧
    d.rawEvents = form.Value "event" ∧
    (∀ (i : Nat) (raw : String) (ev : EventField),
      d.rawEvents[i]? = some raw → d.events[i]? = some ev →
      env.unmarshalEvent raw = some ev) := by
  obtain ⟨evs, he, hr, hf, _⟩ := decodeLoop_ok_inv env _ _ _ hdec
  simp only [List.nil_append] at he hr
  have hl : evs.length = (form.Value "event").length := hf.length_eq.symm
  have h1 : 1 ≤ (form.Value "event").length := Nat.le_of_not_lt hlen
  refine ⟨fun fs => ?_, by rw [he, hl], by rw [hr], h1, ?_, hr, ?_⟩
  · unfold writeEvent
    simp only [hid, huuid, hform, hlen, if_false, hdec, Bool.true_eq_false]
  · rw [he]
    cases evs with
    | nil => rw [← hl] at h1; simp at h1
    | cons e0 rest => exact ⟨e0, rest, rfl⟩
  · intro i raw ev hraw hev
    rw [hr] at hraw
    rw [he] at hev
    exact (forall₂_getElem _ _ _ hf i raw ev hraw hev).2.2

/-- Instance of C10 on a batch of two records. -/
theorem writeEvent_index_safety_witness :
    (∀ fs, writeEvent sampleEnv (eventRequest [recPlain, recOther] []) fs =
      persistEvents sampleEnv sampleReqId (eventForm [recPlain, recOther] [])
        ⟨[⟨⟨"app1", "1.0"⟩, []⟩, ⟨⟨"app2", "2.0"⟩, []⟩], [recPlain, recOther], false, 0⟩ fs) ∧
    (2 : Nat) = 2 ∧ (2 : Nat) = 2 ∧ 1 ≤ 2 :=
  have h := writeEvent_index_safety sampleEnv (eventRequest [recPlain, recOther] [])
    (eventForm [recPlain, recOther] [])
    ⟨[⟨⟨"app1", "1.0"⟩, []⟩, ⟨⟨"app2", "2.0"⟩, []⟩], [recPlain, recOther], false, 0⟩
    (by decide) (by decide) rfl (by decide) (by rfl)
  ⟨h.1, h.2.1, h.2.2.1, h.2.2.2.1⟩

/-- C4: atomic rejection by the event decoder. A request that fails any decoder check
(header absent or empty, header not a valid UUID, body not a multipart form, no `event`
field, or some `event` field empty, not valid JSON or not decodable, wherever it stands
in the batch) is not accepted and leaves the filesystem exactly as it was. -/
theorem writeEvent_decoder_rejection_atomic (env : Env) (req : Request) (fs : FS)
    (h : DecoderRejects env req) :
    (writeEvent env req fs).2 = fs ∧ (writeEvent env req fs).1.status ≠ StatusAccepted := by
  have key : ∃ r, expectedFailure env req = some r ∧ r.status ≠ StatusAccepted := by
    unfold expectedFailure
    by_cases h1 : req.HeaderGet reqIdKey = ""
    · simp only [h1, if_true]
      exact ⟨_, rfl, by rw [errorJSON_status]; decide⟩
    · cases h2 : env.uuidValidate (req.HeaderGet reqIdKey) with
      | false =>
        simp only [h1, if_true, if_false]
        exact ⟨_, rfl, by rw [errorJSON_status]; decide⟩
      | true =>
        cases hm : req.MultipartForm with
        | error e =>
          simp only [h1, if_false, Bool.true_eq_false]
          exact ⟨_, rfl, by decide⟩
        | ok form =>
          simp only [h1, if_false, Bool.true_eq_false]
          by_cases h3 : form.Value "event" = []
          · simp only [h3, if_true]
            exact ⟨_, rfl, by decide⟩
          · simp only [h3, if_false]
            rcases h with h | h | ⟨e, h⟩ | ⟨form1, hf, h⟩
            · exact absurd h h1
            · rw [h2] at h; cases h
            · rw [hm] at h; cases h
            · rw [hm] at hf
              cases hf
              rcases h with h | ⟨f, hmem, hbad⟩
              · exact absurd h h3
              · obtain ⟨r, hr⟩ := findSome_of_bad env _ ⟨f, hmem, firstFailedCheck_of_bad env f hbad⟩
                refine ⟨r, hr, ?_⟩
                rw [findSome_status env _ r hr]
                decide
  obtain ⟨r, hr, hs⟩ := key
  rw [writeEvent_of_expectedFailure env req fs r hr]
  exact ⟨rfl, hs⟩

/-- C5: validation order of `writeEvent`. Whenever the specified order (header
presence, header format, multipart parseability, batch non-emptiness, then the records
in submission order, each checked for emptiness, JSON validity and decodability) yields
a failure, that failure is the response and nothing is written; when it yields none,
the handler goes on to persist the decoded batch; and if record `i` is the first record
failing a per-record check, the response is the first check record `i` fails, whatever
the later records contain. -/
theorem writeEvent_validation_order (env : Env) (req : Request) (fs : FS) :
    (∀ r, expectedFailure env req = some r → writeEvent env req fs = (r, fs)) ∧
    (expectedFailure env req = none →
      ∃ form d, req.MultipartForm = Except.ok form ∧
        decodeLoop env (form.Value "event") ⟨[], [], false, 0⟩ = Except.ok d ∧
        writeEvent env req fs = persistEvents env (req.HeaderGet reqIdKey) form d fs) ∧
    (∀ (form : Form) (i : Nat) (f : String) (r : Response),
      req.HeaderGet reqIdKey ≠ "" →
      env.uuidValidate (req.HeaderGet reqIdKey) = true →
      req.MultipartForm = Except.ok form →
      (form.Value "event")[i]? = some f →
      (∀ (j : Nat) (g : String), j < i → (form.Value "event")[j]? = some g →
        firstFailedCheck env g = none) →
      firstFailedCheck env f = some r →
      writeEvent env req fs = (r, fs)) := by
  refine ⟨fun r h => writeEvent_of_expectedFailure env req fs r h, fun h => ?_, ?_⟩
  · obtain ⟨form, d, hf, hd, hw⟩ := writeEvent_of_no_expectedFailure env req h
    exact ⟨form, d, hf, hd, hw fs⟩
  · intro form i f r h1 h2 hm hi hbefore hf
    apply writeEvent_of_expectedFailure
    unfold expectedFailure
    have h3 : form.Value "event" ≠ [] := by
      intro h0
      rw [h0] at hi
      simp at hi
    simp only [h1, h2, hm, h3, if_false, Bool.true_eq_false]
    exact findSome_index env _ i f r hi hbefore hf

/-- Instance of C5: a valid record, then an empty one, then one that is not JSON; the
empty record at index 1 is reported. -/
theorem writeEvent_validation_order_witness :
    writeEvent sampleEnv (eventRequest [recPlain, "", "not json"] []) emptyFS =
      (errorJSON StatusBadRequest "payload should not contain any empty event", emptyFS) :=
  (writeEvent_validation_order sampleEnv (eventRequest [recPlain, "", "not json"] []) emptyFS).2.2
    (eventForm [recPlain, "", "not json"] []) 1 ""
    (errorJSON StatusBadRequest "payload should not contain any empty event")
    (by decide) (by decide) rfl (by decide)
    (fun j g hj hg => by
      have hj0 : j = 0 := by omega
      subst hj0
      have hg1 : g = recPlain := by
        have : (eventForm [recPlain, "", "not json"] []).Value "event" = [recPlain, "", "not json"] := by
          decide
        rw [this] at hg
        simpa using hg.symm
      subst hg1
      decide)
    (by decide)

/-- C2, at a failing input: a request to `writeEvent` with a valid identifier whose body
cannot be parsed as a multipart form is answered with status 500, while `writeBuild`
answers the same failure with status 400. -/
theorem writeEvent_malformed_multipart_status :
    writeEvent sampleEnv brokenBodyRequest emptyFS =
      (errorJSON 500 "failed to parse multipart request: multipart form", emptyFS) ∧
    (writeBuild sampleEnv brokenBodyRequest emptyFS).1.status = 400 := by
  decide

/-! ## Responses after the decoder -/

theorem writeBlob_error (env : Env) (form : Form) (blobsDir : String) (fs : FS) (a : Attachment)
    (r : Response) (fs1 : FS) (h : writeBlob env form blobsDir fs a = Except.error (r, fs1)) :
    (r = noFileField env ("blob-" ++ a.ID.String) ∧ fs1 = fs) ∨
      r.status = StatusInternalServerError := by
  unfold writeBlob at h
  simp only at h
  split at h
  · cases h; exact Or.inl ⟨rfl, rfl⟩
  · cases h; exact Or.inl ⟨rfl, rfl⟩
  · split at h
    · cases h; exact Or.inr rfl
    · split at h
      · cases h; exact Or.inr rfl
      · split at h
        · cases h; exact Or.inr rfl
        · cases h

theorem writeBlobs_error (env : Env) (form : Form) (blobsDir : String) :
    ∀ (as : List Attachment) (fs : FS) (r : Response) (fs1 : FS),
      writeBlobs env form blobsDir as fs = Except.error (r, fs1) →
      (∃ key, r = noFileField env key) ∨ r.status = StatusInternalServerError := by
  intro as
  induction as with
  | nil => intro fs r fs1 h; simp [writeBlobs] at h
  | cons a rest ih =>
    intro fs r fs1 h
    unfold writeBlobs at h
    cases hb : writeBlob env form blobsDir fs a with
    | error e =>
      rw [hb] at h
      simp only [Except.error.injEq] at h
      subst h
      rcases writeBlob_error env form blobsDir fs a r fs1 hb with ⟨h1, _⟩ | h1
      · exact Or.inl ⟨_, h1⟩
      · exact Or.inr h1
    | ok fs2 =>
      rw [hb] at h
      exact ih fs2 r fs1 h

theorem writeEventBlobs_error (env : Env) (form : Form) (blobsDir : String) :
    ∀ (evs : List EventField) (fs : FS) (r : Response) (fs1 : FS),
      writeEventBlobs env form blobsDir evs fs = Except.error (r, fs1) →
      (∃ key, r = noFileField env key) ∨ r.status = StatusInternalServerError := by
  intro evs
  induction evs with
  | nil => intro fs r fs1 h; simp [writeEventBlobs] at h
  | cons ev rest ih =>
    intro fs r fs1 h
    unfold writeEventBlobs at h
    split_ifs at h with hl
    · exact ih fs r fs1 h
    · cases hb : writeBlobs env form blobsDir ev.Attachments fs with
      | error e =>
        rw [hb] at h
        simp only [Except.error.injEq] at h
        subst h
        exact writeBlobs_error env form blobsDir _ fs r fs1 hb
      | ok fs2 =>
        rw [hb] at h
        exact ih fs2 r fs1 h

theorem ensureDir_error (env : Env) (fs : FS) (dir : String) (r : Response)
    (h : ensureDir env fs dir = Except.error r) : r.status = StatusInternalServerError := by
  unfold ensureDir at h
  split_ifs at h
  split at h
  · cases h; rfl
  · cases h

theorem persistEvents_cases (env : Env) (reqId : String) (form : Form) (d : Decoded) (fs : FS) :
    (persistEvents env reqId form d fs).1.status = StatusInternalServerError ∨
    (persistEvents env reqId form d fs).1.status = StatusAccepted ∨
    ∃ key, (persistEvents env reqId form d fs).1 = noFileField env key := by
  unfold persistEvents
  split
  · exact Or.inl rfl
  · split
    · exact Or.inl rfl
    · simp only
      split
      · rename_i r hr
        exact Or.inl (ensureDir_error env _ _ r hr)
      · split
        · exact Or.inl rfl
        · split
          · exact Or.inl rfl
          · split
            · rename_i r hr
              split_ifs at hr
              · exact Or.inl (ensureDir_error env _ _ r hr)
            · split
              · rename_i e he
                rcases writeEventBlobs_error env form _ _ _ e.1 e.2 he with h | h
                · exact Or.inr (Or.inr h)
                · exact Or.inl h
              · exact Or.inr (Or.inl rfl)

theorem writeMapping_error (env : Env) (form : Form) (app ver : String) (fs : FS)
    (r : Response) (fs1 : FS)
    (h : writeMapping env form app ver fs = Except.error (r, fs1)) :
    r.status = StatusInternalServerError := by
  unfold writeMapping at h
  split at h
  · cases h
  · cases h; rfl
  · split at h
    · cases h
    · split_ifs at h
      · simp only at h
        split at h
        · cases h; rfl
        · split at h
          · cases h; rfl
          · split at h
            · cases h; rfl
            · cases h

theorem writeMapping_without_mapping (env : Env) (form : Form) (app ver : String) (fs fs1 : FS)
    (hm : hasMapping form = false)
    (h : writeMapping env form app ver fs = Except.ok fs1) : fs1 = fs := by
  unfold writeMapping at h
  unfold hasMapping at hm
  split at h
  · cases h; rfl
  · cases h
  · rename_i header rest hfile
    rw [hfile] at hm
    simp only at hm
    split at h
    · cases h; rfl
    · rename_i file hopen
      rw [hopen] at hm
      simp only [decide_eq_false_iff_not] at hm
      simp only [hm, if_false] at h
      cases h; rfl

/-- C3, as amended: a rejection with status 400 leaves the filesystem exactly as it
was, for `writeEvent` unless it is the rejection of a missing attachment part, and for
`writeBuild` unless it is the rejection of `build_size` after a non-empty mapping file
was supplied. -/
theorem validation_rejection_no_write (env : Env) (req : Request) (fs : FS) :
    ((writeEvent env req fs).1.status = StatusBadRequest →
      (∀ key, (writeEvent env req fs).1 ≠ noFileField env key) →
      (writeEvent env req fs).2 = fs) ∧
    ((writeBuild env req fs).1.status = StatusBadRequest →
      ((∀ form, req.MultipartForm = Except.ok form → hasMapping form = false) ∨
        (∀ e, (writeBuild env req fs).1 ≠
          errorJSON StatusBadRequest ("failed to parse build_size: " ++ e))) →
      (writeBuild env req fs).2 = fs) := by
  constructor
  · intro hs hk
    cases he : expectedFailure env req with
    | some r => rw [writeEvent_of_expectedFailure env req fs r he]
    | none =>
      obtain ⟨form, d, _, _, hw⟩ := writeEvent_of_no_expectedFailure env req he
      rw [hw fs] at hs hk
      rcases persistEvents_cases env (req.HeaderGet reqIdKey) form d fs with h | h | ⟨key, h⟩
      · rw [h] at hs; exact absurd hs (by decide)
      · rw [h] at hs; exact absurd hs (by decide)
      · exact absurd h (hk key)
  · intro hs hc
    unfold writeBuild at hs hc ⊢
    cases hform : req.MultipartForm with
    | error e => simp only [hform]
    | ok form =>
      simp only [hform] at hs hc ⊢
      by_cases h1 : form.FormValue "app_unique_id" = ""
      · simp only [h1, if_true]
      · by_cases h2 : form.FormValue "version_name" = ""
        · simp only [h1, h2, if_true, if_false]
        · simp only [h1, h2, if_false] at hs hc ⊢
          cases hmap : writeMapping env form (form.FormValue "app_unique_id")
              (form.FormValue "version_name") fs with
          | error e =>
            simp only [hmap] at hs
            exact absurd hs (by rw [writeMapping_error env form _ _ fs e.1 e.2 hmap]; decide)
          | ok fs1 =>
            simp only [hmap] at hs hc ⊢
            cases hatoi : Atoi (form.FormValue "build_size") with
            | error e =>
              simp only [hatoi] at hs hc ⊢
              rcases hc with hc | hc
              · exact writeMapping_without_mapping env form _ _ fs fs1 (hc form rfl) hmap
              · exact absurd rfl (hc _)
            | ok n =>
              simp only [hatoi] at hs
              split at hs
              · exact absurd hs (by rw [errorJSON_status]; decide)
              · split at hs
                · exact absurd hs (by rw [errorJSON_status]; decide)
                · exact absurd hs (by show ¬ StatusAccepted = StatusBadRequest; decide)

/-- Instance of the amended C3: a batch rejected for an empty record, and a build
submission without mapping file rejected for its `build_size`, both leave the empty
filesystem empty. -/
theorem validation_rejection_no_write_witness :
    (writeEvent sampleEnv (eventRequest [recPlain, ""] []) emptyFS).2 = emptyFS ∧
    (writeBuild sampleEnv (buildRequest [("app_unique_id", "app1"), ("version_name", "1.0"),
      ("build_type", "aab"), ("build_size", "abc")] none) emptyFS).2 = emptyFS :=
  ⟨(validation_rejection_no_write sampleEnv (eventRequest [recPlain, ""] []) emptyFS).1
      (by decide)
      (fun key h => by
        have h1 : (writeEvent sampleEnv (eventRequest [recPlain, ""] []) emptyFS).1 =
            errorJSON StatusBadRequest "payload should not contain any empty event" := by decide
        rw [h1] at h
        simp only [noFileField, errorJSON, Response.mk.injEq, List.cons.injEq, Prod.mk.injEq,
          Val.str.injEq, true_and, and_true] at h
        have h2 := congrArg (fun s => s.data.head?) h
        simp [sampleEnv] at h2),
    (validation_rejection_no_write sampleEnv (buildRequest [("app_unique_id", "app1"),
      ("version_name", "1.0"), ("build_type", "aab"), ("build_size", "abc")] none) emptyFS).2
      (by decide)
      (Or.inl (fun form hf => by
        cases hf
        rfl))⟩

/-- C3, refuted as stated: a batch whose only event declares an attachment without a
file part is answered with status 400 after the batch file has been written, and a build
submission with a mapping file and a non-numeric `build_size` is answered with status 400
after `mapping.txt` has been written. -/
theorem validation_rejection_writes_counterexample :
    ((writeEvent sampleEnv (eventRequest [recBlobA] []) emptyFS).1.status = 400 ∧
      (writeEvent sampleEnv (eventRequest [recBlobA] []) emptyFS).2 ≠ emptyFS) ∧
    ((writeBuild sampleEnv (buildRequest [("app_unique_id", "app1"), ("version_name", "1.0"),
        ("build_type", "aab"), ("build_size", "abc")] (some "map")) emptyFS).1.status = 400 ∧
      (writeBuild sampleEnv (buildRequest [("app_unique_id", "app1"), ("version_name", "1.0"),
        ("build_type", "aab"), ("build_size", "abc")] (some "map")) emptyFS).2 ≠ emptyFS) := by
  decide

/-! ## Lexical paths: splitting and joining -/

theorem splitSlash_ne_nil : ∀ cs : List Char, splitSlash cs ≠ []
  | [] => by simp [splitSlash]
  | c :: cs => by
    unfold splitSlash
    split_ifs
    · simp
    · split <;> simp

theorem splitSlash_append_slash (b : List Char) :
    ∀ a : List Char, splitSlash (a ++ '/' :: b) = splitSlash a ++ splitSlash b
  | [] => by simp [splitSlash]
  | c :: a => by
    have ih := splitSlash_append_slash b a
    simp only [List.cons_append]
    by_cases hc : c = '/'
    · simp [splitSlash, hc, ih]
    · cases hs : splitSlash a with
      | nil => exact absurd hs (splitSlash_ne_nil a)
      | cons h t =>
        rw [splitSlash, if_neg hc, ih, hs]
        simp only [List.cons_append]
        rw [splitSlash, if_neg hc, hs]
        rfl

theorem splitSlash_slashFree : ∀ cs : List Char, '/' ∉ cs → splitSlash cs = [cs]
  | [], _ => by simp [splitSlash]
  | c :: cs, h => by
    have hc : c ≠ '/' := fun e => h (by simp [e])
    have hcs : '/' ∉ cs := fun e => h (List.mem_cons_of_mem _ e)
    rw [splitSlash, if_neg hc, splitSlash_slashFree cs hcs]

theorem splitSlash_pieces : ∀ cs : List Char, ∀ x ∈ splitSlash cs, '/' ∉ x
  | [] => by simp [splitSlash]
  | c :: cs => by
    have ih := splitSlash_pieces cs
    intro x hx
    by_cases hc : c = '/'
    · rw [splitSlash, if_pos hc] at hx
      rcases List.mem_cons.mp hx with h | h
      · subst h; simp
      · exact ih x h
    · cases hs : splitSlash cs with
      | nil => exact absurd hs (splitSlash_ne_nil cs)
      | cons h t =>
        rw [splitSlash, if_neg hc, hs] at hx
        rw [hs] at ih
        rcases List.mem_cons.mp hx with h1 | h1
        · subst h1
          intro hm
          rcases List.mem_cons.mp hm with h2 | h2
          · exact hc h2.symm
          · exact ih h (List.mem_cons_self _ _) h2
        · exact ih x (List.mem_cons_of_mem _ h1)

theorem splitSlash_joinSlash : ∀ xs : List (List Char), xs ≠ [] →
    splitSlash (joinSlash xs) = xs.flatMap splitSlash
  | [], h => absurd rfl h
  | [a], _ => by simp [joinSlash]
  | a :: b :: t, _ => by
    have ih := splitSlash_joinSlash (b :: t) (by simp)
    rw [joinSlash, splitSlash_append_slash, ih]
    simp

theorem splitSlash_append_slashFree (b : List Char) (hb : '/' ∉ b) :
    ∀ a : List Char, ∃ init l, splitSlash a = init ++ [l] ∧ splitSlash (a ++ b) = init ++ [l ++ b]
  | [] => ⟨[], [], by simp [splitSlash], by simp [splitSlash_slashFree b hb]⟩
  | c :: a => by
    obtain ⟨init, l, h1, h2⟩ := splitSlash_append_slashFree b hb a
    by_cases hc : c = '/'
    · refine ⟨[] :: init, l, ?_, ?_⟩
      · rw [splitSlash, if_pos hc, h1]; rfl
      · rw [List.cons_append, splitSlash, if_pos hc, h2]; rfl
    · cases init with
      | nil =>
        refine ⟨[], c :: l, ?_, ?_⟩
        · rw [splitSlash, if_neg hc, h1]; rfl
        · rw [List.cons_append, splitSlash, if_neg hc, h2]; rfl
      | cons i0 rest =>
        refine ⟨(c :: i0) :: rest, l, ?_, ?_⟩
        · rw [splitSlash, if_neg hc, h1]; rfl
        · rw [List.cons_append, splitSlash, if_neg hc, h2]; rfl

/-! ## Lexical paths: walking and cleaning -/

theorem data_ne_nil (s : String) (h : s ≠ "") : s.data ≠ [] := by
  intro h1
  apply h
  cases s
  simp only at h1
  subst h1
  rfl

theorem step_name (S : List String) (c : String) (h : IsName c) : step S c = S ++ [c] := by
  unfold step
  simp [h.1, h.2.1, h.2.2]

theorem foldl_step_names : ∀ (cs : List String) (S : List String), (∀ c ∈ cs, IsName c) →
    cs.foldl step S = S ++ cs
  | [], S, _ => by simp
  | c :: cs, S, h => by
    rw [List.foldl_cons, step_name S c (h c (List.mem_cons_self _ _)),
      foldl_step_names cs _ (fun x hx => h x (List.mem_cons_of_mem _ hx))]
    simp

theorem step_inv (P : String → Prop) (S : List String) (c : String)
    (hS : ∀ x ∈ S, P x) (hc : IsName c → P c) : ∀ x ∈ step S c, P x := by
  unfold step
  split_ifs with h1 h2
  · exact hS
  · exact fun x hx => hS x (List.dropLast_subset S hx)
  · intro x hx
    rcases List.mem_append.mp hx with h | h
    · exact hS x h
    · rw [List.mem_singleton.mp h]
      refine hc ⟨fun e => h1 (Or.inl e), fun e => h1 (Or.inr e), h2⟩

theorem foldl_step_inv (P : String → Prop) : ∀ (cs : List String) (S : List String),
    (∀ x ∈ S, P x) → (∀ c ∈ cs, IsName c → P c) → ∀ x ∈ cs.foldl step S, P x
  | [], S, hS, _ => by simpa using hS
  | c :: cs, S, hS, hc => by
    rw [List.foldl_cons]
    exact foldl_step_inv P cs _ (step_inv P S c hS (hc c (List.mem_cons_self _ _)))
      (fun x hx => hc x (List.mem_cons_of_mem _ hx))

theorem stepRel_inv (P : String → Prop) (u : Nat) (s : List String) (c : String)
    (hS : ∀ x ∈ s, P x) (hc : IsName c → P c) : ∀ x ∈ (stepRel (u, s) c).2, P x := by
  unfold stepRel
  split_ifs with h1 h2 h3
  · exact hS
  · simp
  · exact fun x hx => hS x (List.dropLast_subset s hx)
  · intro x hx
    rcases List.mem_append.mp hx with h | h
    · exact hS x h
    · rw [List.mem_singleton.mp h]
      refine hc ⟨fun e => h1 (Or.inl e), fun e => h1 (Or.inr e), h2⟩

theorem foldl_stepRel_inv (P : String → Prop) : ∀ (cs : List String) (u : Nat) (s : List String),
    (∀ x ∈ s, P x) → (∀ c ∈ cs, IsName c → P c) → ∀ x ∈ (cs.foldl stepRel (u, s)).2, P x
  | [], u, s, hS, _ => by simpa using hS
  | c :: cs, u, s, hS, hc => by
    rw [List.foldl_cons]
    exact foldl_stepRel_inv P cs _ _ (stepRel_inv P u s c hS (hc c (List.mem_cons_self _ _)))
      (fun x hx => hc x (List.mem_cons_of_mem _ hx))

theorem step_stepRel (W : List String) (u : Nat) (s : List String) (c : String)
    (hs : ∀ x ∈ s, IsName x) :
    step ((List.replicate u ".." ++ s).foldl step W) c =
      (List.replicate (stepRel (u, s) c).1 ".." ++ (stepRel (u, s) c).2).foldl step W := by
  unfold stepRel
  by_cases h1 : c = "" ∨ c = "."
  · simp only [h1, if_true]
    unfold step
    simp only [h1, if_true]
  · by_cases h2 : c = ".."
    · subst h2
      have hd : ¬ ((".." : String) = "" ∨ (".." : String) = ".") := by decide
      simp only [hd, if_true, if_false]
      by_cases h3 : s = []
      · subst h3
        simp only [if_true, List.append_nil]
        rw [List.replicate_succ', List.foldl_append]
        rfl
      · simp only [h3, if_false]
        rw [List.foldl_append, List.foldl_append, foldl_step_names s _ hs,
          foldl_step_names s.dropLast _ (fun x hx => hs x (List.dropLast_subset s hx))]
        have : step (List.foldl step W (List.replicate u "..") ++ s) ".." =
            (List.foldl step W (List.replicate u "..") ++ s).dropLast := by
          unfold step
          simp
        rw [this, List.dropLast_append_of_ne_nil _ h3]
    · simp only [h1, h2, if_false]
      simp only [List.foldl_append, List.foldl_cons, List.foldl_nil]

theorem foldl_stepRel (W : List String) : ∀ (cs : List String) (u : Nat) (s : List String),
    (∀ x ∈ s, IsName x) →
    cs.foldl step ((List.replicate u ".." ++ s).foldl step W) =
      (List.replicate (cs.foldl stepRel (u, s)).1 ".." ++ (cs.foldl stepRel (u, s)).2).foldl step W
  | [], u, s, _ => by simp
  | c :: cs, u, s, hs => by
    rw [List.foldl_cons, List.foldl_cons, step_stepRel W u s c hs]
    exact foldl_stepRel W cs _ _ (stepRel_inv IsName u s c hs (fun h => h))

theorem comps_slashFree (p : String) : ∀ c ∈ comps p, SlashFree c := by
  intro c hc
  unfold comps at hc
  obtain ⟨x, hx, rfl⟩ := List.mem_map.mp hc
  exact splitSlash_pieces p.data x hx

theorem comps_sepJoin (N : List String) (hN : N ≠ []) (hsf : ∀ x ∈ N, SlashFree x) :
    comps (sepJoin N) = N := by
  unfold comps sepJoin
  simp only
  rw [splitSlash_joinSlash _ (by simpa using hN)]
  have : ∀ (M : List String), (∀ x ∈ M, SlashFree x) →
      List.map String.mk ((M.map String.data).flatMap splitSlash) = M := by
    intro M
    induction M with
    | nil => intro _; rfl
    | cons a M ih =>
      intro h
      simp only [List.map_cons, List.flatMap_cons, List.map_append]
      rw [ih (fun x hx => h x (List.mem_cons_of_mem _ hx)),
        splitSlash_slashFree a.data (h a (List.mem_cons_self _ _))]
      rfl
  exact this N hsf

theorem comps_sepJoin_cons (e : String) (es : List String) :
    comps (sepJoin (e :: es)) = comps e ++ es.flatMap comps := by
  unfold comps sepJoin
  simp only
  rw [splitSlash_joinSlash _ (by simp)]
  simp only [List.map_cons, List.flatMap_cons, List.map_append]
  congr 1
  induction es with
  | nil => rfl
  | cons a es ih =>
    simp only [List.map_cons, List.flatMap_cons, List.map_append]
    rw [ih]

theorem walk_sepJoin_names (S N : List String) (hN : ∀ x ∈ N, IsName x ∧ SlashFree x) :
    (comps (sepJoin N)).foldl step S = S ++ N := by
  cases N with
  | nil =>
    have : comps (sepJoin []) = [""] := rfl
    rw [this]
    simp [step]
  | cons a N =>
    rw [comps_sepJoin _ (by simp) (fun x hx => (hN x hx).2),
      foldl_step_names _ _ (fun x hx => (hN x hx).1)]

theorem walk_names (p : String) : ∀ x ∈ (comps p).foldl step [], IsName x ∧ SlashFree x :=
  foldl_step_inv (fun x => IsName x ∧ SlashFree x) (comps p) [] (by simp)
    (fun c hc hn => ⟨hn, comps_slashFree p c hc⟩)

theorem rel_names (p : String) :
    ∀ x ∈ ((comps p).foldl stepRel (0, [])).2, IsName x ∧ SlashFree x :=
  foldl_stepRel_inv (fun x => IsName x ∧ SlashFree x) (comps p) 0 [] (by simp)
    (fun c hc hn => ⟨hn, comps_slashFree p c hc⟩)

theorem sepJoin_cons_data (e : String) (es : List String) (c : Char) (cs : List Char)
    (h : e.data = c :: cs) : ∃ t, (sepJoin (e :: es)).data = c :: t := by
  unfold sepJoin
  cases es with
  | nil => exact ⟨cs, by simp [joinSlash, h]⟩
  | cons b t =>
    exact ⟨cs ++ '/' :: joinSlash (b.data :: t.map String.data), by simp [joinSlash, h]⟩

theorem resolve_of_data (fs : FS) (p : String) (c : Char) (cs : List Char) (h : p.data = c :: cs) :
    resolve fs p =
      if c = '/' then some ((comps p).foldl step [])
      else match fs.cwd with
        | none => none
        | some wd =>
          if rooted wd then some ((comps p).foldl step ((comps wd).foldl step [])) else none := by
  have hp : p ≠ "" := by
    intro e
    rw [e] at h
    cases h
  have hr : rooted p = decide (c = '/') := by
    unfold rooted
    rw [h]
  unfold resolve
  rw [if_neg hp, hr]
  by_cases hc : c = '/'
  · simp [hc]
  · simp [hc]

theorem resolve_eq_of_walk (fs : FS) (p1 p2 : String) (c : Char) (cs1 cs2 : List Char)
    (h1 : p1.data = c :: cs1) (h2 : p2.data = c :: cs2)
    (hw : ∀ W, (comps p1).foldl step W = (comps p2).foldl step W) :
    resolve fs p1 = resolve fs p2 := by
  rw [resolve_of_data fs p1 c cs1 h1, resolve_of_data fs p2 c cs2 h2]
  simp only [hw]

theorem resolve_sepJoin (fs : FS) (e : String) (es : List String) (he : e ≠ "") :
    resolve fs (sepJoin (e :: es)) =
      (resolve fs e).map (fun q => (es.flatMap comps).foldl step q) := by
  cases hd : e.data with
  | nil => exact absurd hd (data_ne_nil e he)
  | cons c cs =>
    obtain ⟨t, ht⟩ := sepJoin_cons_data e es c cs hd
    rw [resolve_of_data fs _ c t ht, resolve_of_data fs e c cs hd, comps_sepJoin_cons]
    simp only [List.foldl_append]
    by_cases hc : c = '/'
    · simp [hc]
    · simp only [hc, if_false]
      cases fs.cwd with
      | none => rfl
      | some wd =>
        simp only
        split_ifs <;> rfl

theorem comps_slash_append (s : String) : comps ("/" ++ s) = "" :: comps s := by
  have h : ("/" ++ s).data = '/' :: s.data := by
    rw [String.data_append]
    rfl
  unfold comps
  rw [h, splitSlash]
  simp

theorem clean_rooted_walk (p : String) :
    (comps ("/" ++ sepJoin ((comps p).foldl step []))).foldl step [] = (comps p).foldl step [] := by
  rw [comps_slash_append, List.foldl_cons]
  have hs : step [] "" = [] := by simp [step]
  rw [hs, walk_sepJoin_names [] _ (walk_names p)]
  simp

theorem resolve_Clean (fs : FS) (p : String) (hp : p ≠ "") : resolve fs (Clean p) = resolve fs p := by
  cases hd : p.data with
  | nil => exact absurd hd (data_ne_nil p hp)
  | cons c cs =>
    have hr : rooted p = decide (c = '/') := by
      unfold rooted
      rw [hd]
    unfold Clean
    rw [if_neg hp, hr]
    by_cases hc : c = '/'
    · subst hc
      simp only [decide_True, if_true]
      have h1 : ("/" ++ sepJoin ((comps p).foldl step [])).data =
          '/' :: (sepJoin ((comps p).foldl step [])).data := by
        rw [String.data_append]
        rfl
      rw [resolve_of_data fs _ '/' _ h1, resolve_of_data fs p '/' cs hd]
      simp only [if_true]
      rw [clean_rooted_walk p]
    · simp only [hc, decide_False, Bool.false_eq_true, if_false]
      have hwalk : ∀ W, (comps p).foldl step W =
          (List.replicate ((comps p).foldl stepRel (0, [])).1 ".." ++
            ((comps p).foldl stepRel (0, [])).2).foldl step W := by
        intro W
        have := foldl_stepRel W (comps p) 0 [] (by simp)
        simpa using this
      have hres : resolve fs p = match fs.cwd with
          | none => none
          | some wd =>
            if rooted wd then some ((comps p).foldl step ((comps wd).foldl step [])) else none := by
        rw [resolve_of_data fs p c cs hd, if_neg hc]
      by_cases hnil : List.replicate ((comps p).foldl stepRel (0, [])).1 ".." ++
          ((comps p).foldl stepRel (0, [])).2 = []
      · rw [if_pos hnil, hres]
        have hdot : resolve fs "." = match fs.cwd with
            | none => none
            | some wd =>
              if rooted wd then some ((comps ".").foldl step ((comps wd).foldl step [])) else none := by
          rw [resolve_of_data fs "." '.' [] rfl, if_neg (by decide)]
        rw [hdot]
        have hdot2 : ∀ W, (comps ".").foldl step W = W := by
          intro W
          have : comps "." = ["."] := by decide
          rw [this]
          simp [step]
        simp only [hdot2]
        have hp2 : ∀ W, (comps p).foldl step W = W := by
          intro W
          rw [hwalk W, hnil]
          rfl
        simp only [hp2]
      · rw [if_neg hnil, hres]
        have hsf : ∀ x ∈ List.replicate ((comps p).foldl stepRel (0, [])).1 ".." ++
            ((comps p).foldl stepRel (0, [])).2, x ≠ "" ∧ SlashFree x := by
          intro x hx
          rcases List.mem_append.mp hx with h | h
          · rw [List.eq_of_mem_replicate h]
            exact ⟨by decide, by unfold SlashFree; decide⟩
          · exact ⟨(rel_names p x h).1.1, (rel_names p x h).2⟩
        have hcomps := comps_sepJoin _ hnil (fun x hx => (hsf x hx).2)
        cases hl : List.replicate ((comps p).foldl stepRel (0, [])).1 ".." ++
            ((comps p).foldl stepRel (0, [])).2 with
        | nil => exact absurd hl hnil
        | cons x rest =>
          have hx := hsf x (by rw [hl]; exact List.mem_cons_self _ _)
          cases hxd : x.data with
          | nil => exact absurd hxd (data_ne_nil x hx.1)
          | cons c1 cs1 =>
            have hc1 : c1 ≠ '/' := by
              intro e
              apply hx.2
              rw [hxd, e]
              exact List.mem_cons_self _ _
            obtain ⟨t, ht⟩ := sepJoin_cons_data x rest c1 cs1 hxd
            rw [resolve_of_data fs _ c1 t ht, if_neg hc1]
            rw [hl] at hcomps hwalk
            simp only [hcomps, hwalk]

theorem Join_cons (e : String) (es : List String) (he : e ≠ "") :
    Join (e :: es) = Clean (sepJoin (e :: es)) := by
  unfold Join
  simp [he]

theorem sepJoin_ne_empty (e : String) (es : List String) (he : e ≠ "") : sepJoin (e :: es) ≠ "" := by
  cases hd : e.data with
  | nil => exact absurd hd (data_ne_nil e he)
  | cons c cs =>
    obtain ⟨t, ht⟩ := sepJoin_cons_data e es c cs hd
    intro h
    rw [h] at ht
    cases ht

theorem resolve_Join (fs : FS) (e : String) (es : List String) (he : e ≠ "") :
    resolve fs (Join (e :: es)) =
      (resolve fs e).map (fun q => (es.flatMap comps).foldl step q) := by
  rw [Join_cons e es he, resolve_Clean fs _ (sepJoin_ne_empty e es he), resolve_sepJoin fs e es he]

/-! ## Filesystem operations -/

theorem find_filter_ne (q q1 : Loc) (h : q1 ≠ q) : ∀ nodes : List (Loc × Node),
    find q1 (nodes.filter (fun kv => !decide (kv.1 = q))) = find q1 nodes
  | [] => rfl
  | (k, n) :: rest => by
    have ih := find_filter_ne q q1 h rest
    by_cases hk : k = q
    · subst hk
      have hne : k ≠ q1 := fun e => h e.symm
      simp [List.filter, find, ih, hne]
    · have hkeep : List.filter (fun kv : Loc × Node => !decide (kv.1 = q)) ((k, n) :: rest) =
          (k, n) :: List.filter (fun kv : Loc × Node => !decide (kv.1 = q)) rest := by
        rw [List.filter_cons]
        simp [hk]
      rw [hkeep]
      by_cases hk1 : k = q1
      · simp [find, hk1]
      · simp [find, hk1, ih]

theorem lookup_put (fs : FS) (q q1 : Loc) (n : Node) :
    lookup (put fs q n) q1 =
      if q1 = [] then some Node.dir else if q = q1 then some n else lookup fs q1 := by
  unfold lookup put
  by_cases h0 : q1 = []
  · simp [h0]
  · simp only [h0, if_false]
    by_cases h1 : q = q1
    · simp [find, h1]
    · simp only [find, h1, if_false]
      exact find_filter_ne q q1 (fun e => h1 e.symm) fs.nodes

theorem lookup_put_self (fs : FS) (q : Loc) (n : Node) (hq : q ≠ []) :
    lookup (put fs q n) q = some n := by
  rw [lookup_put]
  simp [hq]

theorem lookup_put_ne (fs : FS) (q q1 : Loc) (n : Node) (h : q1 ≠ q) :
    lookup (put fs q n) q1 = lookup fs q1 := by
  rw [lookup_put]
  have h1 : ¬ q = q1 := fun e => h e.symm
  by_cases h0 : q1 = []
  · simp [h0, lookup]
  · simp [h0, h1]

theorem resolve_cwd (fs fs1 : FS) (p : String) (h : fs1.cwd = fs.cwd) :
    resolve fs1 p = resolve fs p := by
  unfold resolve
  rw [h]

theorem Create_inv (fs fs1 : FS) (p : String) (dst : Loc)
    (h : Create fs p = Except.ok (fs1, dst)) :
    resolve fs p = some dst ∧ dst ≠ [] ∧ fs1 = put fs dst (Node.file "") := by
  unfold Create at h
  split at h
  · cases h
  · rename_i q hq
    split_ifs at h with h1 h2
    simp only [Except.ok.injEq, Prod.mk.injEq] at h
    obtain ⟨hfs, hd⟩ := h
    subst hd
    refine ⟨hq, ?_, hfs.symm⟩
    intro e
    apply h1
    rw [e]
    rfl

theorem WriteFile_inv (fs fs2 : FS) (p data : String)
    (h : WriteFile fs p data = Except.ok fs2) :
    ∃ dst, resolve fs p = some dst ∧ dst ≠ [] ∧ fs2.cwd = fs.cwd ∧
      lookup fs2 dst = some (Node.file data) ∧ ∀ q, q ≠ dst → lookup fs2 q = lookup fs q := by
  unfold WriteFile at h
  split at h
  · cases h
  · rename_i fs1 dst hc
    obtain ⟨hr, hne, hfs1⟩ := Create_inv fs fs1 p dst hc
    simp only [Except.ok.injEq] at h
    subst h
    subst hfs1
    refine ⟨dst, hr, hne, rfl, ?_, ?_⟩
    · unfold writeTo
      exact lookup_put_self _ dst _ hne
    · intro q hq
      unfold writeTo
      rw [lookup_put_ne _ _ _ _ hq, lookup_put_ne _ _ _ _ hq]

theorem readFile_of_lookup (fs : FS) (p : String) (q : Loc) (data : String)
    (hr : resolve fs p = some q) (hl : lookup fs q = some (Node.file data)) :
    readFile fs p = some data := by
  unfold readFile
  rw [hr]
  simp only [hl]

theorem mkdir_fold_cwd : ∀ (L : List Loc) (fs : FS),
    (L.foldl (fun f d => if isDir f d then f else put f d Node.dir) fs).cwd = fs.cwd
  | [], _ => rfl
  | d :: L, fs => by
    rw [List.foldl_cons, mkdir_fold_cwd L]
    split_ifs <;> rfl

theorem mkdir_fold_frame : ∀ (L : List Loc) (fs : FS) (q : Loc), q ∉ L →
    lookup (L.foldl (fun f d => if isDir f d then f else put f d Node.dir) fs) q = lookup fs q
  | [], _, _, _ => rfl
  | d :: L, fs, q, h => by
    rw [List.foldl_cons, mkdir_fold_frame L _ q (fun e => h (List.mem_cons_of_mem _ e))]
    split_ifs
    · rfl
    · exact lookup_put_ne fs d q _ (fun e => h (by rw [e]; exact List.mem_cons_self _ _))

theorem mkdir_fold_keeps : ∀ (L : List Loc) (fs : FS), (∀ d ∈ L, isFile fs d = false) →
    ∀ (q : Loc) (n : Node), lookup fs q = some n →
      lookup (L.foldl (fun f d => if isDir f d then f else put f d Node.dir) fs) q = some n
  | [], _, _, _, _, h => h
  | d :: L, fs, hL, q, n, h => by
    rw [List.foldl_cons]
    by_cases hd : isDir fs d = true
    · simp only [hd, if_true]
      exact mkdir_fold_keeps L fs (fun x hx => hL x (List.mem_cons_of_mem _ hx)) q n h
    · have hd1 : isDir fs d = false := by simpa using hd
      simp only [hd1, Bool.false_eq_true, if_false]
      have hdf : isFile fs d = false := hL d (List.mem_cons_self _ _)
      have hnone : lookup fs d = none := by
        unfold isDir at hd
        unfold isFile at hdf
        cases hl : lookup fs d with
        | none => rfl
        | some m =>
          cases m with
          | dir => simp [hl] at hd
          | file data => simp [hl] at hdf
      have hqd : q ≠ d := by
        intro e
        rw [e, hnone] at h
        cases h
      apply mkdir_fold_keeps L
      · intro x hx
        unfold isFile
        rw [lookup_put]
        by_cases hx0 : x = []
        · simp [hx0]
        · by_cases hdx : d = x
          · simp [hx0, hdx]
          · have := hL x (List.mem_cons_of_mem _ hx)
            unfold isFile at this
            simp only [hx0, hdx, if_false]
            exact this
      · rw [lookup_put_ne fs d q _ hqd]
        exact h

theorem MkdirAll_inv (fs fs1 : FS) (p : String) (h : MkdirAll fs p = Except.ok fs1) :
    ∃ q0, resolve fs p = some q0 ∧ fs1.cwd = fs.cwd ∧
      (∀ q, q ∉ q0.inits → lookup fs1 q = lookup fs q) ∧
      (∀ q n, lookup fs q = some n → lookup fs1 q = some n) := by
  unfold MkdirAll at h
  split at h
  · cases h
  · rename_i q0 hq0
    split_ifs at h with hf
    simp only [Except.ok.injEq] at h
    subst h
    refine ⟨q0, hq0, mkdir_fold_cwd _ _, fun q hq => mkdir_fold_frame _ _ q hq, ?_⟩
    apply mkdir_fold_keeps
    intro d hd
    by_contra hc
    apply hf
    rw [List.any_eq_true]
    exact ⟨d, hd, by simpa using hc⟩

theorem ensureDir_inv (env : Env) (fs fs1 : FS) (dir : String)
    (h : ensureDir env fs dir = Except.ok fs1) :
    fs1.cwd = fs.cwd ∧
      (∀ q, lookup fs1 q ≠ lookup fs q → ∃ q0, resolve fs dir = some q0 ∧ q ∈ q0.inits) ∧
      (∀ q n, lookup fs q = some n → lookup fs1 q = some n) := by
  unfold ensureDir at h
  split_ifs at h
  · split at h
    · cases h
    · rename_i fs2 hm
      simp only [Except.ok.injEq] at h
      subst h
      obtain ⟨q0, hr, hc, hfr, hk⟩ := MkdirAll_inv fs fs2 dir hm
      refine ⟨hc, fun q hq => ⟨q0, hr, ?_⟩, hk⟩
      by_contra hn
      exact hq (hfr q hn)
  · simp only [Except.ok.injEq] at h
    subst h
    exact ⟨rfl, fun q hq => absurd rfl hq, fun q n hn => hn⟩

/-! ## Batches without attachments -/

theorem writeEventBlobs_no_attachments (env : Env) (form : Form) (blobsDir : String) :
    ∀ (evs : List EventField) (fs : FS), (∀ ev ∈ evs, ev.Attachments = []) →
      writeEventBlobs env form blobsDir evs fs = Except.ok fs
  | [], _, _ => rfl
  | ev :: evs, fs, h => by
    unfold writeEventBlobs
    have h0 : ev.Attachments = [] := h ev (List.mem_cons_self _ _)
    simp only [h0, List.length_nil, Nat.lt_one_iff, if_true]
    exact writeEventBlobs_no_attachments env form blobsDir evs fs
      (fun x hx => h x (List.mem_cons_of_mem _ hx))

theorem findSome_none_of_valid (env : Env) : ∀ (fields : List String),
    (∀ f ∈ fields, f ≠ "" ∧ env.jsonValid f = true ∧ ∃ ev, env.unmarshalEvent f = some ev) →
    fields.findSome? (firstFailedCheck env) = none
  | [], _ => rfl
  | f :: rest, h => by
    obtain ⟨h1, h2, ev, h3⟩ := h f (List.mem_cons_self _ _)
    have hf : firstFailedCheck env f = none := by
      unfold firstFailedCheck
      simp [h1, h2, h3]
    simp only [List.findSome?, hf]
    exact findSome_none_of_valid env rest (fun x hx => h x (List.mem_cons_of_mem _ hx))

theorem forall₂_attachments (env : Env) : ∀ (fields : List String) (evs : List EventField),
    List.Forall₂ (fun f ev => f ≠ "" ∧ env.jsonValid f = true ∧ env.unmarshalEvent f = some ev)
      fields evs →
    (∀ f ∈ fields, ∃ ev, env.unmarshalEvent f = some ev ∧ ev.Attachments = []) →
    ∀ ev ∈ evs, ev.Attachments = [] := by
  intro fields evs h
  induction h with
  | nil => intro _ ev hev; simp at hev
  | cons hab _ ih =>
    intro hall ev hev
    rcases List.mem_cons.mp hev with h1 | h1
    · obtain ⟨ev1, hu, ha⟩ := hall _ (List.mem_cons_self _ _)
      rw [hab.2.2] at hu
      cases hu
      rw [h1]
      exact ha
    · exact ih (fun f hf => hall f (List.mem_cons_of_mem _ hf)) ev h1

/-- C1: round-trip fidelity of `writeEvent`. For a request with a valid identifier and a
non-empty list of `event` fields, each non-empty, valid JSON, decodable as an event and
declaring no attachment, whose filesystem steps succeed (the output directory has an
absolute form, the application directory exists or is made, the batch file can be
created), and with `encoding/json` meeting its contract, the request is accepted and the
bytes in `<RequestID>.json` decode to a JSON array with as many elements as submitted
fields, the element at each index being the JSON value of the field at that index. -/
theorem writeEvent_roundtrip (env : Env) (decode : String → Option JVal) (req : Request)
    (form : Form) (fs fs1 fs2 : FS) (dst : Loc) (rootDir f0 : String) (rest : List String)
    (e0 : EventField)
    (hC : MarshalContract env decode)
    (hid : req.HeaderGet reqIdKey ≠ "")
    (huuid : env.uuidValidate (req.HeaderGet reqIdKey) = true)
    (hform : req.MultipartForm = Except.ok form)
    (hfields : form.Value "event" = f0 :: rest)
    (hrec : ∀ f ∈ form.Value "event", f ≠ "" ∧ env.jsonValid f = true ∧
      ∃ ev, env.unmarshalEvent f = some ev ∧ ev.Attachments = [])
    (he0 : env.unmarshalEvent f0 = some e0)
    (hAbs : Abs fs env.outputDir = some rootDir)
    (hdir : ensureDir env fs (appDirPath rootDir e0) = Except.ok fs1)
    (hcreate : Create fs1 (eventFilePath rootDir e0 (req.HeaderGet reqIdKey)) =
      Except.ok (fs2, dst)) :
    ∃ out vs,
      (writeEvent env req fs).1.status = StatusAccepted ∧
      readFile (writeEvent env req fs).2 (eventFilePath rootDir e0 (req.HeaderGet reqIdKey)) =
        some out ∧
      decode out = some (JVal.arr vs) ∧
      vs.length = (form.Value "event").length ∧
      ∀ (i : Nat) (f : String) (v : JVal),
        (form.Value "event")[i]? = some f → vs[i]? = some v → decode f = some v := by
  have hnone : (form.Value "event").findSome? (firstFailedCheck env) = none :=
    findSome_none_of_valid env _ (fun f hf =>
      ⟨(hrec f hf).1, (hrec f hf).2.1, (hrec f hf).2.2.choose, (hrec f hf).2.2.choose_spec.1⟩)
  obtain ⟨d, hd⟩ := decodeLoop_ok_of_findSome_none env _ ⟨[], [], false, 0⟩ hnone
  obtain ⟨evs, hev, hraw, hf2, hblob⟩ := decodeLoop_ok_inv env _ _ _ hd
  simp only [List.nil_append, Bool.false_or] at hev hraw hblob
  have hatt : ∀ ev ∈ evs, ev.Attachments = [] :=
    forall₂_attachments env _ _ hf2 (fun f hf => (hrec f hf).2.2)
  have hblob0 : d.hasBlob = false := by
    rw [hblob, List.any_eq_false]
    intro ev hevm
    simp [hatt ev hevm]
  have hevs : ∃ tl, evs = e0 :: tl := by
    rw [hfields] at hf2
    cases hf2 with
    | cons hab htl =>
      rw [he0] at hab
      have := hab.2.2
      simp only [Option.some.injEq] at this
      exact ⟨_, by rw [this]⟩
  obtain ⟨tl, htl⟩ := hevs
  obtain ⟨out, vs, hm, hdec, hvs⟩ := hC (form.Value "event") (fun r hr => (hrec r hr).2.1)
  have hlen : ¬ (form.Value "event").length < 1 := by rw [hfields]; simp
  have hw : writeEvent env req fs = persistEvents env (req.HeaderGet reqIdKey) form d fs := by
    unfold writeEvent
    simp only [hid, huuid, hform, hlen, if_false, hd, Bool.true_eq_false]
  obtain ⟨hres, hne, hfs2⟩ := Create_inv fs1 fs2 _ dst hcreate
  have hcwd1 : fs1.cwd = fs.cwd := (ensureDir_inv env fs fs1 _ hdir).1
  have hp : persistEvents env (req.HeaderGet reqIdKey) form d fs =
      (⟨StatusAccepted, [("ok", Val.str "accepted")]⟩, writeTo fs2 dst out) := by
    unfold persistEvents
    simp only [hAbs, hev, htl]
    have hdir1 : ensureDir env fs (Join [rootDir, e0.Attribute.AppUniqueID,
        e0.Attribute.AppVersion]) = Except.ok fs1 := hdir
    simp only [hdir1, hraw, hm]
    have hwf : WriteFile fs1 (Join [Join [rootDir, e0.Attribute.AppUniqueID,
        e0.Attribute.AppVersion], req.HeaderGet reqIdKey ++ ".json"]) out =
        Except.ok (writeTo fs2 dst out) := by
      unfold WriteFile
      have hc1 : Create fs1 (Join [Join [rootDir, e0.Attribute.AppUniqueID,
          e0.Attribute.AppVersion], req.HeaderGet reqIdKey ++ ".json"]) =
          Except.ok (fs2, dst) := hcreate
      rw [hc1]
    simp only [hwf, hblob0, Bool.false_eq_true, if_false]
    have hb := writeEventBlobs_no_attachments env form
      (Join [Join [rootDir, e0.Attribute.AppUniqueID, e0.Attribute.AppVersion], "blobs"])
      (e0 :: tl) (writeTo fs2 dst out) (by rw [← htl]; exact hatt)
    simp only [hb]
  refine ⟨out, vs, ?_, ?_, hdec, hvs.length_eq.symm, ?_⟩
  · rw [hw, hp]
  · rw [hw, hp]
    simp only
    apply readFile_of_lookup _ _ dst
    · rw [resolve_cwd fs1 (writeTo fs2 dst out) _ (by rw [hfs2]; rfl)]
      exact hres
    · unfold writeTo
      exact lookup_put_self _ dst _ hne
  · intro i f v hi hv
    exact forall₂_getElem _ _ _ hvs i f v hi hv

theorem stripLead_append : ∀ (r t : List Char), stripLead r (r ++ t) = some t
  | [], t => by cases t <;> rfl
  | c :: cs, t => by
    simp only [List.cons_append, stripLead, if_true]
    exact stripLead_append cs t

theorem sepJoinWith_cons_cons (sep : Char) (a b : String) (t : List String) :
    (sepJoinWith sep (a :: b :: t)).data = a.data ++ sep :: (sepJoinWith sep (b :: t)).data := by
  simp [sepJoinWith, String.data_append]

theorem countRecords_replicate (rec : String) : ∀ (n fuel : Nat), n < fuel →
    countRecords rec.data fuel ((sepJoinWith ',' (List.replicate (n + 1) rec)).data ++ [']']) =
      some (n + 1)
  | 0, fuel, h => by
    obtain ⟨k, rfl⟩ : ∃ k, fuel = k + 1 := ⟨fuel - 1, by omega⟩
    have : (sepJoinWith ',' (List.replicate 1 rec)).data = rec.data := rfl
    rw [this, countRecords, stripLead_append]
    rfl
  | n + 1, fuel, h => by
    obtain ⟨k, rfl⟩ : ∃ k, fuel = k + 1 := ⟨fuel - 1, by omega⟩
    have : (sepJoinWith ',' (List.replicate (n + 1 + 1) rec)).data =
        rec.data ++ ',' :: (sepJoinWith ',' (List.replicate (n + 1) rec)).data := by
      rw [List.replicate_succ, List.replicate_succ, sepJoinWith_cons_cons, ← List.replicate_succ]
    rw [this, countRecords, List.append_assoc, stripLead_append]
    simp only [List.cons_append]
    rw [countRecords_replicate rec n k (by omega)]
    rfl

theorem sepJoinWith_length (rec : String) : ∀ n : Nat,
    n < ((sepJoinWith ',' (List.replicate (n + 1) rec)).data ++ [']']).length
  | 0 => by simp
  | n + 1 => by
    have ih := sepJoinWith_length rec n
    have : (sepJoinWith ',' (List.replicate (n + 1 + 1) rec)).data =
        rec.data ++ ',' :: (sepJoinWith ',' (List.replicate (n + 1) rec)).data := by
      rw [List.replicate_succ, List.replicate_succ, sepJoinWith_cons_cons, ← List.replicate_succ]
    rw [this]
    simp only [List.length_append, List.length_cons, List.length_nil] at ih ⊢
    omega

theorem plainEnv_marshalContract : MarshalContract plainEnv decodePlain := by
  intro rs hrs
  have hall : ∀ r ∈ rs, r = recPlain := fun r hr => by simpa [plainEnv] using hrs r hr
  have hrep : rs = List.replicate rs.length recPlain := List.eq_replicate_iff.mpr ⟨rfl, hall⟩
  have hrec : decodePlain recPlain = some recordValue := by simp [decodePlain]
  refine ⟨"[" ++ sepJoinWith ',' rs ++ "]", List.replicate rs.length recordValue, rfl, ?_, ?_⟩
  · cases hn : rs.length with
    | zero =>
      have : rs = [] := List.length_eq_zero.mp hn
      subst this
      rfl
    | succ n =>
      rw [hn] at hrep
      have hdata : ("[" ++ sepJoinWith ',' rs ++ "]").data =
          '[' :: ((sepJoinWith ',' (List.replicate (n + 1) recPlain)).data ++ [']']) := by
        rw [String.data_append, String.data_append, ← hrep]
        rfl
      have hne : ("[" ++ sepJoinWith ',' rs ++ "]") ≠ recPlain := by
        intro e
        have := congrArg String.data e
        rw [hdata] at this
        have h2 := congrArg List.head? this
        have h3 : recPlain.data.head? = some (Char.ofNat 123) := by decide
        rw [List.head?_cons, h3] at h2
        exact absurd h2 (by decide)
      unfold decodePlain
      rw [if_neg hne, hdata]
      simp only
      have hnot : ¬ ((sepJoinWith ',' (List.replicate (n + 1) recPlain)).data ++ [']'] = [']']) := by
        intro e
        have h2 := congrArg List.length e
        have h3 : 0 < (sepJoinWith ',' (List.replicate (n + 1) recPlain)).data.length := by
          cases n with
          | zero => decide
          | succ m =>
            rw [List.replicate_succ, List.replicate_succ, sepJoinWith_cons_cons]
            simp
        simp only [List.length_append, List.length_cons, List.length_nil] at h2
        omega
      rw [if_neg hnot, countRecords_replicate recPlain n _ (sepJoinWith_length recPlain n)]
      rfl
  · rw [List.forall₂_iff_zip]
    refine ⟨by simp, fun {a b} hab => ?_⟩
    have ha : a = recPlain := hall a (List.of_mem_zip hab).1
    have hb : b = recordValue := List.eq_of_mem_replicate (List.of_mem_zip hab).2
    rw [ha, hb]
    exact hrec

/-- Instance of C1: a batch of two copies of `recPlain` sent to an empty filesystem. -/
theorem writeEvent_roundtrip_witness :
    ∃ out vs,
      (writeEvent plainEnv (eventRequest [recPlain, recPlain] []) emptyFS).1.status =
        StatusAccepted ∧
      readFile (writeEvent plainEnv (eventRequest [recPlain, recPlain] []) emptyFS).2
        "/srv/session-data/app1/1.0/3fae0d6c-9b1e-4c6e-8f0a-5d2b7c9e1a34.json" = some out ∧
      decodePlain out = some (JVal.arr vs) ∧
      vs.length = 2 ∧
      ∀ (i : Nat) (f : String) (v : JVal),
        [recPlain, recPlain][i]? = some f → vs[i]? = some v → decodePlain f = some v :=
  writeEvent_roundtrip plainEnv decodePlain (eventRequest [recPlain, recPlain] [])
    (eventForm [recPlain, recPlain] []) emptyFS
    ⟨some "/srv/sessionator",
      [(["srv", "session-data", "app1", "1.0"], Node.dir),
        (["srv", "session-data", "app1"], Node.dir),
        (["srv", "session-data"], Node.dir),
        (["srv"], Node.dir)]⟩
    ⟨some "/srv/sessionator",
      [(["srv", "session-data", "app1", "1.0", "3fae0d6c-9b1e-4c6e-8f0a-5d2b7c9e1a34.json"],
          Node.file ""),
        (["srv", "session-data", "app1", "1.0"], Node.dir),
        (["srv", "session-data", "app1"], Node.dir),
        (["srv", "session-data"], Node.dir),
        (["srv"], Node.dir)]⟩
    ["srv", "session-data", "app1", "1.0", "3fae0d6c-9b1e-4c6e-8f0a-5d2b7c9e1a34.json"]
    "/srv/session-data" recPlain [recPlain] ⟨⟨"app1", "1.0"⟩, []⟩
    plainEnv_marshalContract (by decide) (by decide) rfl (by decide)
    (fun f hf => by
      have hf1 : f = recPlain := by
        have : (eventForm [recPlain, recPlain] []).Value "event" = [recPlain, recPlain] := by decide
        rw [this] at hf
        simpa using hf
      subst hf1
      exact ⟨by decide, by decide, ⟨⟨"app1", "1.0"⟩, []⟩, rfl, rfl⟩)
    rfl (by decide) (by decide) (by decide)

/-! ## Lexical paths: the last element of a joined path -/

theorem comps_name (y : String) (h : SlashFree y) : comps y = [y] := by
  unfold comps
  rw [splitSlash_slashFree y.data h]
  rfl

theorem Join_empty_cons (es : List String) : Join ("" :: es) = Join es := by
  unfold Join
  simp

theorem Clean_ne_empty (p : String) : Clean p ≠ "" := by
  unfold Clean
  by_cases h1 : p = ""
  · rw [if_pos h1]
    decide
  · rw [if_neg h1]
    by_cases h2 : rooted p = true
    · rw [if_pos h2]
      intro e
      have := congrArg String.data e
      rw [String.data_append] at this
      cases this
    · rw [if_neg h2]
      simp only
      by_cases h3 : List.replicate ((comps p).foldl stepRel (0, [])).1 ".." ++
          ((comps p).foldl stepRel (0, [])).2 = []
      · rw [if_pos h3]
        decide
      · rw [if_neg h3]
        cases hl : List.replicate ((comps p).foldl stepRel (0, [])).1 ".." ++
            ((comps p).foldl stepRel (0, [])).2 with
        | nil => exact absurd hl h3
        | cons x rest =>
          apply sepJoin_ne_empty
          have hx : x ∈ List.replicate ((comps p).foldl stepRel (0, [])).1 ".." ++
              ((comps p).foldl stepRel (0, [])).2 := by rw [hl]; exact List.mem_cons_self _ _
          rcases List.mem_append.mp hx with h | h
          · rw [List.eq_of_mem_replicate h]
            decide
          · exact (rel_names p x h).1.1

/-- The location the working directory names. -/
theorem resolve_name (fs : FS) (y : String) (hn : IsName y) (hs : SlashFree y) :
    resolve fs y = (resolve fs ".").map (fun q => q ++ [y]) := by
  cases hd : y.data with
  | nil => exact absurd hd (data_ne_nil y hn.1)
  | cons c cs =>
    have hc : c ≠ '/' := by
      intro e
      apply hs
      rw [hd, e]
      exact List.mem_cons_self _ _
    rw [resolve_of_data fs y c cs hd, if_neg hc, resolve_of_data fs "." '.' [] rfl,
      if_neg (by decide), comps_name y hs]
    have hdot : comps "." = ["."] := by decide
    rw [hdot]
    cases fs.cwd with
    | none => rfl
    | some wd =>
      simp only
      split_ifs
      · have hdotstep : ∀ W : List String, step W "." = W := by
          intro W
          simp [step]
        simp only [List.foldl_cons, List.foldl_nil, Option.map_some', step_name _ y hn, hdotstep]
      · rfl

theorem resolve_Join_snoc (fs : FS) : ∀ (es : List String), ∃ r : Option Loc,
    ∀ y, IsName y → SlashFree y → resolve fs (Join (es ++ [y])) = r.map (fun q => q ++ [y])
  | [] => ⟨resolve fs ".", fun y hn hs => by
      rw [List.nil_append, Join_cons y [] hn.1, resolve_Clean fs _ (sepJoin_ne_empty y [] hn.1)]
      have : sepJoin [y] = y := rfl
      rw [this]
      exact resolve_name fs y hn hs⟩
  | e :: es => by
    by_cases he : e = ""
    · obtain ⟨r, hr⟩ := resolve_Join_snoc fs es
      refine ⟨r, fun y hn hs => ?_⟩
      rw [he, List.cons_append, Join_empty_cons]
      exact hr y hn hs
    · refine ⟨(resolve fs e).map (fun q => (es.flatMap comps).foldl step q), fun y hn hs => ?_⟩
      rw [List.cons_append, resolve_Join fs e _ he, List.flatMap_append]
      have : [y].flatMap comps = [y] := by simp [comps_name y hs]
      rw [this]
      cases resolve fs e with
      | none => rfl
      | some q =>
        simp only [Option.map_some', List.foldl_append, List.foldl_cons, List.foldl_nil,
          step_name _ y hn]

theorem resolve_Join_walk (fs : FS) (d x : String) (hx : x ≠ "") (q : Loc)
    (h : resolve fs (Join [d, x]) = some q) : ∃ S, q = (comps x).foldl step S := by
  by_cases hd : d = ""
  · rw [hd, Join_empty_cons, Join_cons x [] hx, resolve_Clean fs _ (sepJoin_ne_empty x [] hx)] at h
    have hsj : sepJoin [x] = x := rfl
    rw [hsj] at h
    cases hdat : x.data with
    | nil => exact absurd hdat (data_ne_nil x hx)
    | cons c cs =>
      rw [resolve_of_data fs x c cs hdat] at h
      split_ifs at h with h1
      · exact ⟨[], by simpa using h.symm⟩
      · cases hc : fs.cwd with
        | none => rw [hc] at h; cases h
        | some wd =>
          rw [hc] at h
          simp only at h
          split_ifs at h
          exact ⟨_, by simpa using h.symm⟩
  · rw [resolve_Join fs d [x] hd] at h
    cases hr : resolve fs d with
    | none => rw [hr] at h; cases h
    | some q0 =>
      rw [hr] at h
      simp only [Option.map_some', Option.some.injEq, List.flatMap_cons, List.flatMap_nil,
        List.append_nil] at h
      exact ⟨q0, h.symm⟩

/-! ## Builds -/

theorem FileHeader_Open_some (h f : FileHeader) (ho : h.Open = some f) : f = h := by
  unfold FileHeader.Open at ho
  split_ifs at ho
  cases ho
  rfl

theorem writeMapping_with_mapping (env : Env) (form : Form) (app ver : String) (fs fs3 : FS)
    (hm : hasMapping form = true)
    (h : writeMapping env form app ver fs = Except.ok fs3) :
    ∃ header rest q, form.File "mapping_file" = some header :: rest ∧
      resolve fs (Join [env.outputDir, app, ver, "mapping.txt"]) = some q ∧
      fs3.cwd = fs.cwd ∧ lookup fs3 q = some (Node.file header.content) := by
  unfold writeMapping at h
  unfold hasMapping at hm
  split at h
  · rename_i hfile
    rw [hfile] at hm
    cases hm
  · cases h
  · rename_i header rest hfile
    rw [hfile] at hm
    simp only at hm
    split at h
    · rename_i hopen
      rw [hopen] at hm
      cases hm
    · rename_i file hopen
      rw [hopen] at hm
      simp only [decide_eq_true_eq] at hm
      simp only [hm, if_true] at h
      split at h
      · cases h
      · rename_i fs1 hmk
        split at h
        · cases h
        · rename_i fs2 out hcr
          split at h
          · cases h
          · rename_i fs4 hcopy
            simp only [Except.ok.injEq] at h
            subst h
            obtain ⟨_, _, hc1, _, _⟩ := MkdirAll_inv fs fs1 _ hmk
            obtain ⟨hres, hne, hfs2⟩ := Create_inv fs1 fs2 _ out hcr
            have hfile2 : file = header := FileHeader_Open_some header file hopen
            unfold Copy at hcopy
            split_ifs at hcopy
            simp only [Option.some.injEq] at hcopy
            subst hcopy
            subst hfs2
            refine ⟨header, rest, out, hfile, ?_, ?_, ?_⟩
            · rw [← resolve_cwd fs fs1 _ hc1]
              exact hres
            · exact hc1
            · rw [hfile2]
              unfold writeTo
              exact lookup_put_self _ out _ hne

theorem toUint32_of_range (n : Int) (h0 : 0 ≤ n) (h1 : n < 4294967296) : toUint32 n = n.toNat := by
  unfold toUint32
  rw [Int.emod_eq_of_lt h0 h1]

/-- C7, as amended: for every build submission whose mapping file part can be opened
and is not empty, that `writeBuild` accepts, and whose `build_size` denotes an integer
from 0 up to 4294967295, `mapping.txt` holds exactly the uploaded bytes and `build.toml`
holds the encoding of the `BuildInfo` whose `Type` is the submitted `build_type` and whose
`Size` is that integer. -/
theorem writeBuild_exact_metadata (env : Env) (req : Request) (form : Form) (fs : FS) (n : Int)
    (hform : req.MultipartForm = Except.ok form)
    (hmap : hasMapping form = true)
    (hacc : (writeBuild env req fs).1.status = StatusAccepted)
    (hn : Atoi (form.FormValue "build_size") = Except.ok n)
    (hrange : 0 ≤ n ∧ n < 4294967296) :
    ∃ header rest enc,
      form.File "mapping_file" = some header :: rest ∧
      readFile (writeBuild env req fs).2
        (Join [env.outputDir, form.FormValue "app_unique_id", form.FormValue "version_name",
          "mapping.txt"]) = some header.content ∧
      env.tomlEncode { Size := n.toNat, Type_ := form.FormValue "build_type" } = Except.ok enc ∧
      readFile (writeBuild env req fs).2
        (Join [env.outputDir, form.FormValue "app_unique_id", form.FormValue "version_name",
          "build.toml"]) = some enc := by
  unfold writeBuild at hacc ⊢
  simp only [hform] at hacc ⊢
  by_cases h1 : form.FormValue "app_unique_id" = ""
  · simp only [h1, if_true] at hacc
    exact absurd hacc (by rw [errorJSON_status]; decide)
  · by_cases h2 : form.FormValue "version_name" = ""
    · simp only [h1, h2, if_true, if_false] at hacc
      exact absurd hacc (by rw [errorJSON_status]; decide)
    · simp only [h1, h2, if_false] at hacc ⊢
      cases hmp : writeMapping env form (form.FormValue "app_unique_id")
          (form.FormValue "version_name") fs with
      | error e =>
        simp only [hmp] at hacc
        exact absurd hacc (by rw [writeMapping_error env form _ _ fs e.1 e.2 hmp]; decide)
      | ok fs3 =>
        simp only [hmp, hn] at hacc ⊢
        obtain ⟨header, rest, q, hfile, hq, hcwd3, hlook⟩ :=
          writeMapping_with_mapping env form _ _ fs fs3 hmap hmp
        cases hcr : Create fs3 (Join [env.outputDir, form.FormValue "app_unique_id",
            form.FormValue "version_name", "build.toml"]) with
        | error e =>
          simp only [hcr] at hacc
          exact absurd hacc (by rw [errorJSON_status]; decide)
        | ok pr =>
          obtain ⟨fs4, out2⟩ := pr
          simp only [hcr] at hacc ⊢
          rw [toUint32_of_range n hrange.1 hrange.2] at hacc ⊢
          cases htoml : env.tomlEncode { Size := n.toNat, Type_ := form.FormValue "build_type" } with
          | error e =>
            simp only [htoml] at hacc
            exact absurd hacc (by rw [errorJSON_status]; decide)
          | ok enc =>
            simp only
            obtain ⟨hres2, hne2, hfs4⟩ := Create_inv fs3 fs4 _ out2 hcr
            subst hfs4
            rw [resolve_cwd fs fs3 _ hcwd3] at hres2
            obtain ⟨r, hr⟩ := resolve_Join_snoc fs
              [env.outputDir, form.FormValue "app_unique_id", form.FormValue "version_name"]
            have hm1 := hr "mapping.txt" (by unfold IsName; decide) (by unfold SlashFree; decide)
            have hb1 := hr "build.toml" (by unfold IsName; decide) (by unfold SlashFree; decide)
            simp only [List.cons_append, List.nil_append] at hm1 hb1
            rw [hq] at hm1
            rw [hres2] at hb1
            have hqne : q ≠ out2 := by
              cases r with
              | none => cases hm1
              | some X =>
                simp only [Option.map_some', Option.some.injEq] at hm1 hb1
                rw [hm1, hb1]
                intro e
                have := List.append_cancel_left e
                revert this
                decide
            have hcwdf : (writeTo (put fs3 out2 (Node.file "")) out2 enc).cwd = fs.cwd := hcwd3
            refine ⟨header, rest, enc, hfile, ?_, rfl, ?_⟩
            · apply readFile_of_lookup _ _ q
              · rw [resolve_cwd fs _ _ hcwdf]
                exact hq
              · unfold writeTo
                rw [lookup_put_ne _ _ _ _ hqne, lookup_put_ne _ _ _ _ hqne]
                exact hlook
            · apply readFile_of_lookup _ _ out2
              · rw [resolve_cwd fs _ _ hcwdf]
                exact hres2
              · unfold writeTo
                exact lookup_put_self _ out2 _ hne2

/-- Instance of the amended C7: a build of 1024 bytes with a mapping file. -/
theorem writeBuild_exact_metadata_witness :
    ∃ enc,
      sampleEnv.tomlEncode { Size := 1024, Type_ := "aab" } = Except.ok enc ∧
      readFile (writeBuild sampleEnv (buildRequest [("app_unique_id", "app1"),
        ("version_name", "1.0"), ("build_type", "aab"), ("build_size", "1024")] (some "map"))
        emptyFS).2 (Join ["../session-data", "app1", "1.0", "mapping.txt"]) = some "map" ∧
      readFile (writeBuild sampleEnv (buildRequest [("app_unique_id", "app1"),
        ("version_name", "1.0"), ("build_type", "aab"), ("build_size", "1024")] (some "map"))
        emptyFS).2 (Join ["../session-data", "app1", "1.0", "build.toml"]) = some enc := by
  obtain ⟨header, rest, enc, h1, h2, h3, h4⟩ :=
    writeBuild_exact_metadata sampleEnv (buildRequest [("app_unique_id", "app1"),
      ("version_name", "1.0"), ("build_type", "aab"), ("build_size", "1024")] (some "map"))
      (buildForm [("app_unique_id", "app1"), ("version_name", "1.0"), ("build_type", "aab"),
        ("build_size", "1024")] (some "map"))
      emptyFS 1024 rfl (by decide) (by decide) (by decide) (by decide)
  have hh : header = ⟨"map", false, false⟩ := by
    have h5 : [some (⟨"map", false, false⟩ : FileHeader)] = some header :: rest := h1
    simp only [List.cons.injEq, Option.some.injEq] at h5
    exact h5.1.symm
  subst hh
  exact ⟨enc, h3, h2, h4⟩

/-- C7, refuted as stated, in two ways. A build submission with a mapping file and
`build_size` `4294967297` is accepted, the integer denoted is 4294967297, and `build.toml`
holds the encoding of a `BuildInfo` of `Size` 1, not that of `Size` 4294967297. And a
build submission whose mapping file part holds bytes and cannot be opened is accepted
while no `mapping.txt` is written. -/
theorem writeBuild_size_wraps_counterexample :
    ((writeBuild sampleEnv (buildRequest [("app_unique_id", "app1"), ("version_name", "1.0"),
      ("build_type", "aab"), ("build_size", "4294967297")] (some "map")) emptyFS).1.status = 202 ∧
    Atoi "4294967297" = Except.ok 4294967297 ∧
    readFile (writeBuild sampleEnv (buildRequest [("app_unique_id", "app1"),
      ("version_name", "1.0"), ("build_type", "aab"), ("build_size", "4294967297")]
      (some "map")) emptyFS).2 "../session-data/app1/1.0/build.toml" =
        some "Size = 1\nType = \"aab\"\n" ∧
    sampleEnv.tomlEncode { Size := 1, Type_ := "aab" } =
      Except.ok "Size = 1\nType = \"aab\"\n" ∧
    sampleEnv.tomlEncode { Size := 4294967297, Type_ := "aab" } =
      Except.ok "Size = 4294967297\nType = \"aab\"\n") ∧
    ((writeBuild sampleEnv (unopenableMappingRequest [("app_unique_id", "app1"),
      ("version_name", "1.0"), ("build_type", "aab"), ("build_size", "7")] "map")
      ⟨some "/srv/sessionator", [(["srv", "session-data", "app1", "1.0"], Node.dir),
        (["srv", "session-data", "app1"], Node.dir), (["srv", "session-data"], Node.dir),
        (["srv"], Node.dir)]⟩).1.status = 202 ∧
    readFile (writeBuild sampleEnv (unopenableMappingRequest [("app_unique_id", "app1"),
      ("version_name", "1.0"), ("build_type", "aab"), ("build_size", "7")] "map")
      ⟨some "/srv/sessionator", [(["srv", "session-data", "app1", "1.0"], Node.dir),
        (["srv", "session-data", "app1"], Node.dir), (["srv", "session-data"], Node.dir),
        (["srv"], Node.dir)]⟩).2 "../session-data/app1/1.0/mapping.txt" = none ∧
    readFile (writeBuild sampleEnv (unopenableMappingRequest [("app_unique_id", "app1"),
      ("version_name", "1.0"), ("build_type", "aab"), ("build_size", "7")] "map")
      ⟨some "/srv/sessionator", [(["srv", "session-data", "app1", "1.0"], Node.dir),
        (["srv", "session-data", "app1"], Node.dir), (["srv", "session-data"], Node.dir),
        (["srv"], Node.dir)]⟩).2 "../session-data/app1/1.0/build.toml" =
        some "Size = 7\nType = \"aab\"\n") := by
  decide

/-- C6, at a failing input: a build submission with `build_size` `0` and no mapping file,
sent while `<root>/app1/1.0` does not exist, is answered with status 500 and nothing is
written, although the same submission with a mapping file is accepted and leaves
`build.toml` behind. -/
theorem writeBuild_without_mapping_needs_directory :
    writeBuild sampleEnv (buildRequest [("app_unique_id", "app1"), ("version_name", "1.0"),
      ("build_type", "aab"), ("build_size", "0")] none) emptyFS =
      (errorJSON 500 ("failed create build.toml file: " ++
        "open ../session-data/app1/1.0/build.toml: no such file or directory"), emptyFS) ∧
    (writeBuild sampleEnv (buildRequest [("app_unique_id", "app1"), ("version_name", "1.0"),
      ("build_type", "aab"), ("build_size", "0")] (some "map")) emptyFS).1.status = 202 ∧
    readFile (writeBuild sampleEnv (buildRequest [("app_unique_id", "app1"),
      ("version_name", "1.0"), ("build_type", "aab"), ("build_size", "0")] (some "map"))
      emptyFS).2 "../session-data/app1/1.0/build.toml" = some "Size = 0\nType = \"aab\"\n" := by
  decide

/-- Instance of C4: two valid records followed by one that is not JSON. -/
theorem writeEvent_decoder_rejection_atomic_witness :
    (writeEvent sampleEnv (eventRequest [recPlain, recOther, "not json"] []) emptyFS).2 = emptyFS ∧
    (writeEvent sampleEnv (eventRequest [recPlain, recOther, "not json"] []) emptyFS).1.status ≠
      StatusAccepted :=
  writeEvent_decoder_rejection_atomic sampleEnv
    (eventRequest [recPlain, recOther, "not json"] []) emptyFS
    (Or.inr (Or.inr (Or.inr ⟨eventForm [recPlain, recOther, "not json"] [], rfl,
      Or.inr ⟨"not json", by decide, Or.inr (Or.inl (by decide))⟩⟩)))

/-! ## The blob loops -/

theorem writeBlob_blobKey (env : Env) (form : Form) (blobsDir : String) (fs : FS) (a : Attachment) :
    writeBlob env form blobsDir fs a =
      match form.File (blobKey a) with
      | [] => Except.error (noFileField env (blobKey a), fs)
      | none :: _ => Except.error (noFileField env (blobKey a), fs)
      | some file :: _ =>
        match Create fs (Join [blobsDir, a.ID.String]) with
        | Except.error _ =>
          Except.error (⟨StatusInternalServerError,
            [("error", Val.err (pathErr env (Join [blobsDir, a.ID.String])))]⟩, fs)
        | Except.ok (fs1, dst) =>
          match file.Open with
          | none =>
            Except.error (errorJSON StatusInternalServerError
              ("failed to open blob with id " ++ env.quote (blobKey a)), fs1)
          | some src =>
            match Copy fs1 dst src with
            | none =>
              Except.error (errorJSON StatusInternalServerError
                ("failed to write " ++ env.quote (Join [blobsDir, a.ID.String]) ++ " to disk"), fs1)
            | some fs2 => Except.ok fs2 := rfl

theorem writeBlob_missing (env : Env) (form : Form) (blobsDir : String) (fs : FS) (a : Attachment)
    (h : hasPart form a = false) :
    writeBlob env form blobsDir fs a = Except.error (noFileField env (blobKey a), fs) := by
  rw [writeBlob_blobKey]
  unfold hasPart at h
  split
  · rfl
  · rfl
  · rename_i file rest hf
    rw [hf] at h
    cases h

theorem writeBlob_present (env : Env) (form : Form) (blobsDir : String) (fs : FS) (a : Attachment)
    (h : hasPart form a = true) :
    ∃ file rest, form.File (blobKey a) = some file :: rest ∧
      ((∃ r, writeBlob env form blobsDir fs a = Except.error (r, fs) ∧
          r.status = StatusInternalServerError) ∨
       (∃ r dst, writeBlob env form blobsDir fs a =
            Except.error (r, put fs dst (Node.file "")) ∧
          r.status = StatusInternalServerError ∧
          resolve fs (Join [blobsDir, a.ID.String]) = some dst ∧ dst ≠ []) ∨
       (∃ dst, writeBlob env form blobsDir fs a =
            Except.ok (put (put fs dst (Node.file "")) dst (Node.file file.content)) ∧
          resolve fs (Join [blobsDir, a.ID.String]) = some dst ∧ dst ≠ [])) := by
  unfold hasPart at h
  cases hf : form.File (blobKey a) with
  | nil => rw [hf] at h; cases h
  | cons x rest =>
    cases x with
    | none => rw [hf] at h; cases h
    | some file =>
      refine ⟨file, rest, rfl, ?_⟩
      rw [writeBlob_blobKey, hf]
      simp only
      cases hc : Create fs (Join [blobsDir, a.ID.String]) with
      | error e => exact Or.inl ⟨_, rfl, rfl⟩
      | ok pr =>
        obtain ⟨fs1, dst⟩ := pr
        obtain ⟨hres, hne, hfs1⟩ := Create_inv fs fs1 _ dst hc
        subst hfs1
        simp only
        cases ho : file.Open with
        | none => exact Or.inr (Or.inl ⟨_, dst, rfl, rfl, hres, hne⟩)
        | some src =>
          have hsrc : src = file := FileHeader_Open_some file src ho
          subst hsrc
          simp only
          unfold Copy
          by_cases hrd : src.readFails = true
          · simp only [hrd, if_true]
            exact Or.inr (Or.inl ⟨_, dst, rfl, rfl, hres, hne⟩)
          · simp only [hrd, if_false]
            exact Or.inr (Or.inr ⟨dst, rfl, hres, hne⟩)

theorem writeBlobs_spec (env : Env) (form : Form) (blobsDir : String) :
    ∀ (as : List Attachment) (fs : FS),
      (∃ fs1, writeBlobs env form blobsDir as fs = Except.ok fs1 ∧ firstMissing form as = none) ∨
      (∃ r fs1, writeBlobs env form blobsDir as fs = Except.error (r, fs1) ∧
        (r.status = StatusInternalServerError ∨
          ∃ a, firstMissing form as = some a ∧ r = noFileField env (blobKey a)))
  | [], fs => Or.inl ⟨fs, rfl, rfl⟩
  | a :: rest, fs => by
    unfold writeBlobs firstMissing
    cases hp : hasPart form a with
    | false =>
      rw [writeBlob_missing env form blobsDir fs a hp]
      exact Or.inr ⟨_, _, rfl, Or.inr ⟨a, by simp [List.find?, hp], rfl⟩⟩
    | true =>
      have hfm : List.find? (fun a => !hasPart form a) (a :: rest) =
          List.find? (fun a => !hasPart form a) rest := by
        simp [List.find?, hp]
      rw [hfm]
      obtain ⟨file, frest, _, h | h | h⟩ := writeBlob_present env form blobsDir fs a hp
      · obtain ⟨r, hr, hs⟩ := h
        rw [hr]
        exact Or.inr ⟨_, _, rfl, Or.inl hs⟩
      · obtain ⟨r, dst, hr, hs, _⟩ := h
        rw [hr]
        exact Or.inr ⟨_, _, rfl, Or.inl hs⟩
      · obtain ⟨dst, hr, _⟩ := h
        rw [hr]
        exact writeBlobs_spec env form blobsDir rest _

theorem firstMissing_append (form : Form) (as bs : List Attachment) :
    firstMissing form (as ++ bs) =
      match firstMissing form as with
      | some a => some a
      | none => firstMissing form bs := by
  unfold firstMissing
  rw [List.find?_append]
  cases List.find? (fun a => !hasPart form a) as <;> rfl

theorem writeEventBlobs_spec (env : Env) (form : Form) (blobsDir : String) :
    ∀ (evs : List EventField) (fs : FS),
      (∃ fs1, writeEventBlobs env form blobsDir evs fs = Except.ok fs1 ∧
        firstMissing form (allAttachments evs) = none) ∨
      (∃ r fs1, writeEventBlobs env form blobsDir evs fs = Except.error (r, fs1) ∧
        (r.status = StatusInternalServerError ∨
          ∃ a, firstMissing form (allAttachments evs) = some a ∧ r = noFileField env (blobKey a)))
  | [], fs => Or.inl ⟨fs, rfl, rfl⟩
  | ev :: rest, fs => by
    have hall : allAttachments (ev :: rest) = ev.Attachments ++ allAttachments rest := by
      simp [allAttachments]
    rw [hall, firstMissing_append]
    unfold writeEventBlobs
    by_cases hl : ev.Attachments.length < 1
    · have hnil : ev.Attachments = [] := by
        cases hA : ev.Attachments with
        | nil => rfl
        | cons x xs => rw [hA] at hl; simp at hl
      simp only [hl, if_true, hnil]
      exact writeEventBlobs_spec env form blobsDir rest fs
    · simp only [hl, if_false]
      rcases writeBlobs_spec env form blobsDir ev.Attachments fs with ⟨fs1, h1, h2⟩ | ⟨r, fs1, h1, h2⟩
      · rw [h1, h2]
        exact writeEventBlobs_spec env form blobsDir rest fs1
      · rw [h1]
        refine Or.inr ⟨r, fs1, rfl, ?_⟩
        rcases h2 with h2 | ⟨a, ha, hr⟩
        · exact Or.inl h2
        · exact Or.inr ⟨a, by rw [ha], hr⟩

/-! ## Names of blob files and of the batch file -/

theorem hexDigit_safe (n : Nat) : hexDigit n ≠ '/' ∧ hexDigit n ≠ '.' := by
  unfold hexDigit
  split <;> decide

theorem hexEncode_safe : ∀ (bs : List Nat), ∀ c ∈ hexEncode bs, c ≠ '/' ∧ c ≠ '.'
  | [] => by simp [hexEncode]
  | b :: bs => by
    intro c hc
    simp only [hexEncode, List.mem_cons] at hc
    rcases hc with h | h | h
    · rw [h]; exact hexDigit_safe _
    · rw [h]; exact hexDigit_safe _
    · exact hexEncode_safe bs c h

theorem UUID_String_chars (u : UUID) : ∀ c ∈ u.String.data, c ≠ '/' ∧ c ≠ '.' := by
  intro c hc
  simp only [UUID.String, List.mem_append, List.mem_cons, or_assoc] at hc
  have hdash : ('-' : Char) ≠ '/' ∧ ('-' : Char) ≠ '.' := by decide
  rcases hc with h | h | h | h | h | h | h | h | h
  · exact hexEncode_safe _ c h
  · rw [h]; exact hdash
  · exact hexEncode_safe _ c h
  · rw [h]; exact hdash
  · exact hexEncode_safe _ c h
  · rw [h]; exact hdash
  · exact hexEncode_safe _ c h
  · rw [h]; exact hdash
  · exact hexEncode_safe _ c h

theorem UUID_String_name (u : UUID) :
    IsName u.String ∧ SlashFree u.String ∧ '.' ∉ u.String.data := by
  have hch := UUID_String_chars u
  have hdot : '.' ∉ u.String.data := fun h => (hch '.' h).2 rfl
  have hdash : '-' ∈ u.String.data := by
    simp [UUID.String]
  refine ⟨⟨?_, ?_, ?_⟩, fun h => (hch '/' h).1 rfl, hdot⟩
  · intro e
    rw [e] at hdash
    simp at hdash
  · intro e
    rw [e] at hdot
    exact hdot (by decide)
  · intro e
    rw [e] at hdot
    exact hdot (by decide)

theorem resolve_Join_pair (fs : FS) (d y : String) (hn : IsName y) (hs : SlashFree y)
    (q0 : Loc) (hd : resolve fs d = some q0) :
    resolve fs (Join [d, y]) = some (q0 ++ [y]) := by
  have hne : d ≠ "" := by
    intro e
    rw [e] at hd
    simp [resolve] at hd
  rw [resolve_Join fs d [y] hne, hd]
  simp [comps_name y hs, step_name _ y hn]

theorem blob_loc_inj (fs : FS) (blobsDir : String) (u v : UUID) (q : Loc)
    (hu : resolve fs (Join [blobsDir, u.String]) = some q)
    (hv : resolve fs (Join [blobsDir, v.String]) = some q) : u.String = v.String := by
  obtain ⟨r, hr⟩ := resolve_Join_snoc fs [blobsDir]
  have h1 := hr u.String (UUID_String_name u).1 (UUID_String_name u).2.1
  have h2 := hr v.String (UUID_String_name v).1 (UUID_String_name v).2.1
  simp only [List.cons_append, List.nil_append] at h1 h2
  rw [hu] at h1
  rw [hv] at h2
  cases r with
  | none => cases h1
  | some X =>
    simp only [Option.map_some', Option.some.injEq] at h1 h2
    rw [h1] at h2
    have := List.append_cancel_left h2
    simpa using this

theorem blob_loc_last (fs : FS) (blobsDir : String) (u : UUID) (q : Loc)
    (hu : resolve fs (Join [blobsDir, u.String]) = some q) : ∃ X, q = X ++ [u.String] := by
  obtain ⟨r, hr⟩ := resolve_Join_snoc fs [blobsDir]
  have h1 := hr u.String (UUID_String_name u).1 (UUID_String_name u).2.1
  simp only [List.cons_append, List.nil_append] at h1
  rw [hu] at h1
  cases r with
  | none => cases h1
  | some X =>
    simp only [Option.map_some', Option.some.injEq] at h1
    exact ⟨X, h1⟩

theorem event_loc_last (fs : FS) (appDir reqId : String) (q : Loc)
    (h : resolve fs (Join [appDir, reqId ++ ".json"]) = some q) :
    ∃ X nm, q = X ++ [nm] ∧ '.' ∈ nm.data := by
  have hx : reqId ++ ".json" ≠ "" := by
    intro e
    have := congrArg String.length e
    simp [String.length_append] at this
    exact absurd this.2 (by decide)
  obtain ⟨S, hS⟩ := resolve_Join_walk fs appDir _ hx q h
  obtain ⟨init, l, h1, h2⟩ :=
    splitSlash_append_slashFree ".json".data (by decide) reqId.data
  have hc : comps (reqId ++ ".json") = init.map String.mk ++ [String.mk (l ++ ".json".data)] := by
    unfold comps
    rw [String.data_append, h2]
    simp
  have hname : IsName (String.mk (l ++ ".json".data)) := by
    have hlen : 5 ≤ (String.mk (l ++ ".json".data)).data.length := by
      show 5 ≤ (l ++ ".json".data).length
      have : ".json".data.length = 5 := by decide
      rw [List.length_append, this]
      omega
    refine ⟨?_, ?_, ?_⟩
    · intro e
      rw [e] at hlen
      revert hlen
      decide
    · intro e
      rw [e] at hlen
      revert hlen
      decide
    · intro e
      rw [e] at hlen
      revert hlen
      decide
  refine ⟨(init.map String.mk).foldl step S, String.mk (l ++ ".json".data), ?_, ?_⟩
  · rw [hS, hc, List.foldl_append, List.foldl_cons, List.foldl_nil, step_name _ _ hname]
  · simp only [List.mem_append]
    exact Or.inr (by decide)

/-! ## What the blob loops change -/

theorem Frame.refl (fs : FS) (S : Loc → Prop) : Frame fs fs S :=
  ⟨rfl, fun _ h => absurd rfl h⟩

theorem Frame.trans {fs fs1 fs2 : FS} {S : Loc → Prop} (h1 : Frame fs fs1 S)
    (h2 : Frame fs1 fs2 S) : Frame fs fs2 S := by
  refine ⟨h2.1.trans h1.1, fun q hq => ?_⟩
  by_cases hc : lookup fs2 q = lookup fs1 q
  · exact h1.2 q (by rw [← hc]; exact hq)
  · exact h2.2 q hc

theorem Frame.mono {fs fs1 : FS} {S T : Loc → Prop} (h : Frame fs fs1 S) (hST : ∀ q, S q → T q) :
    Frame fs fs1 T :=
  ⟨h.1, fun q hq => hST q (h.2 q hq)⟩

theorem Frame_put (fs : FS) (dst : Loc) (n : Node) : Frame fs (put fs dst n) (fun q => q = dst) := by
  refine ⟨rfl, fun q hq => ?_⟩
  by_contra hne
  exact hq (lookup_put_ne fs dst q n hne)

theorem writeBlob_frame (env : Env) (form : Form) (blobsDir : String) (fs : FS) (a : Attachment) :
    Frame fs (stateOf (writeBlob env form blobsDir fs a))
      (fun q => hasPart form a = true ∧ resolve fs (Join [blobsDir, a.ID.String]) = some q) := by
  cases hp : hasPart form a with
  | false =>
    rw [writeBlob_missing env form blobsDir fs a hp]
    exact Frame.refl fs _
  | true =>
    obtain ⟨file, frest, _, h | h | h⟩ := writeBlob_present env form blobsDir fs a hp
    · obtain ⟨r, hr, _⟩ := h
      rw [hr]
      exact Frame.refl fs _
    · obtain ⟨r, dst, hr, _, hres, _⟩ := h
      rw [hr]
      exact (Frame_put fs dst _).mono (fun q hq => ⟨rfl, by rw [hq]; exact hres⟩)
    · obtain ⟨dst, hr, hres, _⟩ := h
      rw [hr]
      have h1 := (Frame_put fs dst (Node.file "")).mono
        (T := fun q => true = true ∧ resolve fs (Join [blobsDir, a.ID.String]) = some q)
        (fun q hq => ⟨rfl, by rw [hq]; exact hres⟩)
      have h2 := (Frame_put (put fs dst (Node.file "")) dst (Node.file file.content)).mono
        (T := fun q => true = true ∧ resolve fs (Join [blobsDir, a.ID.String]) = some q)
        (fun q hq => ⟨rfl, by rw [hq]; exact hres⟩)
      exact h1.trans h2

theorem writeBlobs_frame (env : Env) (form : Form) (blobsDir : String) :
    ∀ (as : List Attachment) (fs : FS),
      Frame fs (stateOf (writeBlobs env form blobsDir as fs))
        (fun q => ∃ a ∈ as, hasPart form a = true ∧
          resolve fs (Join [blobsDir, a.ID.String]) = some q)
  | [], fs => Frame.refl fs _
  | a :: rest, fs => by
    have h1 := writeBlob_frame env form blobsDir fs a
    unfold writeBlobs
    cases hb : writeBlob env form blobsDir fs a with
    | error e =>
      rw [hb] at h1
      exact h1.mono (fun q hq => ⟨a, List.mem_cons_self _ _, hq⟩)
    | ok fs1 =>
      rw [hb] at h1
      simp only
      have h2 := writeBlobs_frame env form blobsDir rest fs1
      have hc : fs1.cwd = fs.cwd := h1.1
      refine Frame.trans (h1.mono (fun q hq => ⟨a, List.mem_cons_self _ _, hq⟩))
        (h2.mono (fun q hq => ?_))
      obtain ⟨b, hb1, hb2, hb3⟩ := hq
      exact ⟨b, List.mem_cons_of_mem _ hb1, hb2, by rw [← resolve_cwd fs fs1 _ hc]; exact hb3⟩

theorem writeEventBlobs_frame (env : Env) (form : Form) (blobsDir : String) :
    ∀ (evs : List EventField) (fs : FS),
      Frame fs (stateOf (writeEventBlobs env form blobsDir evs fs))
        (fun q => ∃ a ∈ allAttachments evs, hasPart form a = true ∧
          resolve fs (Join [blobsDir, a.ID.String]) = some q)
  | [], fs => Frame.refl fs _
  | ev :: rest, fs => by
    have hall : allAttachments (ev :: rest) = ev.Attachments ++ allAttachments rest := by
      simp [allAttachments]
    unfold writeEventBlobs
    by_cases hl : ev.Attachments.length < 1
    · simp only [hl, if_true]
      refine (writeEventBlobs_frame env form blobsDir rest fs).mono (fun q hq => ?_)
      obtain ⟨b, hb1, hb2⟩ := hq
      exact ⟨b, by rw [hall]; exact List.mem_append_right _ hb1, hb2⟩
    · simp only [hl, if_false]
      have h1 := writeBlobs_frame env form blobsDir ev.Attachments fs
      cases hb : writeBlobs env form blobsDir ev.Attachments fs with
      | error e =>
        rw [hb] at h1
        refine h1.mono (fun q hq => ?_)
        obtain ⟨b, hb1, hb2⟩ := hq
        exact ⟨b, by rw [hall]; exact List.mem_append_left _ hb1, hb2⟩
      | ok fs1 =>
        rw [hb] at h1
        simp only
        have h2 := writeEventBlobs_frame env form blobsDir rest fs1
        have hc : fs1.cwd = fs.cwd := h1.1
        refine Frame.trans (h1.mono (fun q hq => ?_)) (h2.mono (fun q hq => ?_))
        · obtain ⟨b, hb1, hb2⟩ := hq
          exact ⟨b, by rw [hall]; exact List.mem_append_left _ hb1, hb2⟩
        · obtain ⟨b, hb1, hb2, hb3⟩ := hq
          exact ⟨b, by rw [hall]; exact List.mem_append_right _ hb1, hb2,
            by rw [← resolve_cwd fs fs1 _ hc]; exact hb3⟩

/-- Bytes of a blob written earlier stay in place while later attachments are written. -/
theorem content_after (form : Form) (blobsDir : String) (fs1 fs2 : FS) (later : List Attachment)
    (hframe : Frame fs1 fs2 (fun q => ∃ b ∈ later, hasPart form b = true ∧
      resolve fs1 (Join [blobsDir, b.ID.String]) = some q))
    (hcont : ∀ b ∈ later, ∀ file rest dst, form.File (blobKey b) = some file :: rest →
      resolve fs1 (Join [blobsDir, b.ID.String]) = some dst →
      lookup fs2 dst = some (Node.file file.content))
    (a : Attachment) (file : FileHeader) (rest : List (Option FileHeader)) (dst : Loc)
    (hf : form.File (blobKey a) = some file :: rest)
    (hres : resolve fs1 (Join [blobsDir, a.ID.String]) = some dst)
    (hl : lookup fs1 dst = some (Node.file file.content)) :
    lookup fs2 dst = some (Node.file file.content) := by
  by_cases hc : lookup fs2 dst = lookup fs1 dst
  · rw [hc]; exact hl
  · obtain ⟨b, hb1, _, hb3⟩ := hframe.2 dst hc
    have hs : a.ID.String = b.ID.String := blob_loc_inj fs1 blobsDir a.ID b.ID dst hres hb3
    have hk : blobKey b = blobKey a := by unfold blobKey; rw [hs]
    exact hcont b hb1 file rest dst (by rw [hk]; exact hf) hb3

theorem writeBlobs_content (env : Env) (form : Form) (blobsDir : String) :
    ∀ (as : List Attachment) (fs fs2 : FS),
      writeBlobs env form blobsDir as fs = Except.ok fs2 →
      ∀ a ∈ as, ∀ file rest dst, form.File (blobKey a) = some file :: rest →
        resolve fs (Join [blobsDir, a.ID.String]) = some dst →
        lookup fs2 dst = some (Node.file file.content)
  | [], _, _ => by intro _ a ha; simp at ha
  | a0 :: tl, fs, fs2 => by
    intro h a ha file rest dst hf hres
    unfold writeBlobs at h
    cases hb : writeBlob env form blobsDir fs a0 with
    | error e => rw [hb] at h; cases h
    | ok fs1 =>
      rw [hb] at h
      simp only at h
      have hfr1 := writeBlob_frame env form blobsDir fs a0
      rw [hb] at hfr1
      have hc1 : fs1.cwd = fs.cwd := hfr1.1
      have ih := writeBlobs_content env form blobsDir tl fs1 fs2 h
      have hfr2 := writeBlobs_frame env form blobsDir tl fs1
      rw [h] at hfr2
      rcases List.mem_cons.mp ha with h0 | h0
      · subst h0
        have hp : hasPart form a = true := by
          unfold hasPart
          rw [hf]
        obtain ⟨file1, rest1, hf1, hcase | hcase | hcase⟩ :=
          writeBlob_present env form blobsDir fs a hp
        · obtain ⟨r, hr, _⟩ := hcase
          rw [hr] at hb
          cases hb
        · obtain ⟨r, dst1, hr, _⟩ := hcase
          rw [hr] at hb
          cases hb
        · obtain ⟨dst1, hr, hres1, hne1⟩ := hcase
          rw [hr] at hb
          simp only [Except.ok.injEq] at hb
          rw [hf] at hf1
          simp only [List.cons.injEq, Option.some.injEq] at hf1
          rw [hres] at hres1
          simp only [Option.some.injEq] at hres1
          apply content_after form blobsDir fs1 fs2 tl hfr2 ih a file rest dst hf
          · rw [resolve_cwd fs fs1 _ hc1]
            exact hres
          · rw [← hb, ← hres1, ← hf1.1]
            exact lookup_put_self _ dst _ (by rw [hres1]; exact hne1)
      · exact ih a h0 file rest dst hf (by rw [resolve_cwd fs fs1 _ hc1]; exact hres)

theorem writeEventBlobs_content (env : Env) (form : Form) (blobsDir : String) :
    ∀ (evs : List EventField) (fs fs2 : FS),
      writeEventBlobs env form blobsDir evs fs = Except.ok fs2 →
      ∀ a ∈ allAttachments evs, ∀ file rest dst, form.File (blobKey a) = some file :: rest →
        resolve fs (Join [blobsDir, a.ID.String]) = some dst →
        lookup fs2 dst = some (Node.file file.content)
  | [], _, _ => by intro _ a ha; simp [allAttachments] at ha
  | ev :: tl, fs, fs2 => by
    intro h a ha file rest dst hf hres
    have hall : allAttachments (ev :: tl) = ev.Attachments ++ allAttachments tl := by
      simp [allAttachments]
    rw [hall] at ha
    unfold writeEventBlobs at h
    by_cases hl : ev.Attachments.length < 1
    · simp only [hl, if_true] at h
      have hnil : ev.Attachments = [] := by
        cases hA : ev.Attachments with
        | nil => rfl
        | cons x xs => rw [hA] at hl; simp at hl
      rw [hnil, List.nil_append] at ha
      exact writeEventBlobs_content env form blobsDir tl fs fs2 h a ha file rest dst hf hres
    · simp only [hl, if_false] at h
      cases hb : writeBlobs env form blobsDir ev.Attachments fs with
      | error e => rw [hb] at h; cases h
      | ok fs1 =>
        rw [hb] at h
        simp only at h
        have hfr1 := writeBlobs_frame env form blobsDir ev.Attachments fs
        rw [hb] at hfr1
        have hc1 : fs1.cwd = fs.cwd := hfr1.1
        have ih := writeEventBlobs_content env form blobsDir tl fs1 fs2 h
        have hfr2 := writeEventBlobs_frame env form blobsDir tl fs1
        rw [h] at hfr2
        have hres1 : resolve fs1 (Join [blobsDir, a.ID.String]) = some dst := by
          rw [resolve_cwd fs fs1 _ hc1]
          exact hres
        rcases List.mem_append.mp ha with h0 | h0
        · exact content_after form blobsDir fs1 fs2 (allAttachments tl) hfr2 ih a file rest dst hf
            hres1 (writeBlobs_content env form blobsDir _ fs fs1 hb a h0 file rest dst hf hres)
        · exact ih a h0 file rest dst hf hres1

/-! ## The stages of persisting a batch -/

theorem persistEvents_stages (env : Env) (reqId : String) (form : Form) (d : Decoded) (fs : FS)
    (rootDir : String) (e0 : EventField) (rest : List EventField)
    (hAbs : Abs fs env.outputDir = some rootDir) (hev : d.events = e0 :: rest) :
    (∃ r, r.status = StatusInternalServerError ∧
      persistEvents env reqId form d fs = (r, fs)) ∨
    ∃ fs1, ensureDir env fs (appDirPath rootDir e0) = Except.ok fs1 ∧
      ((∃ r, r.status = StatusInternalServerError ∧
          persistEvents env reqId form d fs = (r, fs1)) ∨
       ∃ jsonBytes fs2, env.marshalRaw d.rawEvents = some jsonBytes ∧
          WriteFile fs1 (eventFilePath rootDir e0 reqId) jsonBytes = Except.ok fs2 ∧
          ((∃ r, r.status = StatusInternalServerError ∧
              persistEvents env reqId form d fs = (r, fs2)) ∨
           ∃ fs3, (if d.hasBlob then ensureDir env fs2 (blobsDirPath rootDir e0)
                else Except.ok fs2) = Except.ok fs3 ∧
              ((∃ e, writeEventBlobs env form (blobsDirPath rootDir e0) d.events fs3 =
                    Except.error e ∧ persistEvents env reqId form d fs = e) ∨
               ∃ fs4, writeEventBlobs env form (blobsDirPath rootDir e0) d.events fs3 =
                    Except.ok fs4 ∧
                  persistEvents env reqId form d fs =
                    (⟨StatusAccepted, [("ok", Val.str "accepted")]⟩, fs4)))) := by
  unfold persistEvents
  simp only [hAbs, hev]
  show _ ∨ ∃ fs1, ensureDir env fs (Join [rootDir, e0.Attribute.AppUniqueID,
      e0.Attribute.AppVersion]) = Except.ok fs1 ∧ _
  cases h1 : ensureDir env fs (Join [rootDir, e0.Attribute.AppUniqueID,
      e0.Attribute.AppVersion]) with
  | error r => exact Or.inl ⟨r, ensureDir_error env _ _ r h1, rfl⟩
  | ok fs1 =>
    refine Or.inr ⟨fs1, rfl, ?_⟩
    simp only
    cases h2 : env.marshalRaw d.rawEvents with
    | none => exact Or.inl ⟨_, rfl, rfl⟩
    | some jsonBytes =>
      simp only
      show _ ∨ ∃ jb fs2, some jsonBytes = some jb ∧
        WriteFile fs1 (Join [Join [rootDir, e0.Attribute.AppUniqueID,
          e0.Attribute.AppVersion], reqId ++ ".json"]) jb = Except.ok fs2 ∧ _
      cases h3 : WriteFile fs1 (Join [Join [rootDir, e0.Attribute.AppUniqueID,
          e0.Attribute.AppVersion], reqId ++ ".json"]) jsonBytes with
      | error e => exact Or.inl ⟨_, rfl, rfl⟩
      | ok fs2 =>
        refine Or.inr ⟨jsonBytes, fs2, rfl, h3, ?_⟩
        simp only
        show _ ∨ ∃ fs3, (if d.hasBlob = true then ensureDir env fs2
            (Join [Join [rootDir, e0.Attribute.AppUniqueID, e0.Attribute.AppVersion], "blobs"])
          else Except.ok fs2) = Except.ok fs3 ∧ _
        cases h4 : (if d.hasBlob = true then ensureDir env fs2
            (Join [Join [rootDir, e0.Attribute.AppUniqueID, e0.Attribute.AppVersion], "blobs"])
          else Except.ok fs2) with
        | error r =>
          refine Or.inl ⟨r, ?_, rfl⟩
          split_ifs at h4
          exact ensureDir_error env _ _ r h4
        | ok fs3 =>
          refine Or.inr ⟨fs3, rfl, ?_⟩
          simp only
          show _ ∨ ∃ fs4, writeEventBlobs env form
            (Join [Join [rootDir, e0.Attribute.AppUniqueID, e0.Attribute.AppVersion], "blobs"])
            (e0 :: rest) fs3 = Except.ok fs4 ∧ _
          cases h5 : writeEventBlobs env form
              (Join [Join [rootDir, e0.Attribute.AppUniqueID, e0.Attribute.AppVersion], "blobs"])
              (e0 :: rest) fs3 with
          | error e => exact Or.inl ⟨e, h5, rfl⟩
          | ok fs4 => exact Or.inr ⟨fs4, rfl, rfl⟩

theorem event_blob_disjoint (fs : FS) (appDir reqId blobsDir : String) (u : UUID) (q : Loc)
    (he : resolve fs (Join [appDir, reqId ++ ".json"]) = some q)
    (hb : resolve fs (Join [blobsDir, u.String]) = some q) : False := by
  obtain ⟨X, nm, h1, hdot⟩ := event_loc_last fs appDir reqId q he
  obtain ⟨Y, h2⟩ := blob_loc_last fs blobsDir u q hb
  rw [h1] at h2
  have hlast := congrArg List.reverse h2
  simp only [List.reverse_append, List.reverse_singleton, List.singleton_append,
    List.cons.injEq] at hlast
  rw [hlast.1] at hdot
  exact (UUID_String_name u).2.2 hdot

theorem expectedFailure_status (env : Env) (req : Request) (r : Response)
    (h : expectedFailure env req = some r) :
    r.status = StatusBadRequest ∨ r.status = StatusInternalServerError := by
  unfold expectedFailure at h
  split_ifs at h with h1 h2
  · cases h; exact Or.inl rfl
  · cases h; exact Or.inl rfl
  · split at h
    · cases h; exact Or.inr rfl
    · split_ifs at h with h3
      · cases h; exact Or.inl rfl
      · exact Or.inl (findSome_status env _ r h)

theorem persistEvents_frame (env : Env) (reqId : String) (form : Form) (d : Decoded) (fs : FS)
    (rootDir : String) (e0 : EventField) (rest : List EventField)
    (hAbs : Abs fs env.outputDir = some rootDir) (hev : d.events = e0 :: rest) :
    Frame fs (persistEvents env reqId form d fs).2
      (Touched form fs rootDir e0 reqId d.events) := by
  rcases persistEvents_stages env reqId form d fs rootDir e0 rest hAbs hev with
    ⟨r, _, hp⟩ | ⟨fs1, h1, hrest⟩
  · rw [hp]; exact Frame.refl fs _
  · obtain ⟨hc1, hfr1, _⟩ := ensureDir_inv env fs fs1 _ h1
    have F1 : Frame fs fs1 (Touched form fs rootDir e0 reqId d.events) :=
      ⟨hc1, fun q hq => Or.inl (hfr1 q hq)⟩
    rcases hrest with ⟨r, _, hp⟩ | ⟨jb, fs2, _, hw, hrest⟩
    · rw [hp]; exact F1
    · obtain ⟨dst, hres, _, hc2, _, hfr2⟩ := WriteFile_inv fs1 fs2 _ _ hw
      have F2 : Frame fs1 fs2 (Touched form fs rootDir e0 reqId d.events) := by
        refine ⟨hc2, fun q hq => Or.inr (Or.inr (Or.inl ?_))⟩
        have hqd : q = dst := by
          by_contra hne
          exact hq (hfr2 q hne)
        rw [hqd, ← resolve_cwd fs fs1 _ hc1]
        exact hres
      have F12 := F1.trans F2
      rcases hrest with ⟨r, _, hp⟩ | ⟨fs3, h3, hrest⟩
      · rw [hp]; exact F12
      · have F3 : Frame fs2 fs3 (Touched form fs rootDir e0 reqId d.events) := by
          split_ifs at h3
          · obtain ⟨hc3, hfr3, _⟩ := ensureDir_inv env fs2 fs3 _ h3
            refine ⟨hc3, fun q hq => Or.inr (Or.inl ?_)⟩
            obtain ⟨q0, hq0, hin⟩ := hfr3 q hq
            exact ⟨q0, by rw [← resolve_cwd fs fs2 _ F12.1]; exact hq0, hin⟩
          · cases h3
            exact Frame.refl _ _
        have F123 := F12.trans F3
        have F4 := writeEventBlobs_frame env form (blobsDirPath rootDir e0) d.events fs3
        have F4t : Frame fs3 (stateOf (writeEventBlobs env form (blobsDirPath rootDir e0)
            d.events fs3)) (Touched form fs rootDir e0 reqId d.events) := by
          refine F4.mono (fun q hq => Or.inr (Or.inr (Or.inr ?_)))
          obtain ⟨a, ha1, ha2, ha3⟩ := hq
          exact ⟨a, ha1, ha2, by rw [← resolve_cwd fs fs3 _ F123.1]; exact ha3⟩
        rcases hrest with ⟨e, he, hp⟩ | ⟨fs4, h4, hp⟩
        · rw [hp]
          rw [he] at F4t
          exact F123.trans F4t
        · rw [hp]
          rw [h4] at F4t
          exact F123.trans F4t

theorem persistEvents_accepted_pre (env : Env) (reqId : String) (form : Form) (d : Decoded)
    (fs : FS) (h : (persistEvents env reqId form d fs).1.status = StatusAccepted) :
    ∃ rootDir e0 rest, Abs fs env.outputDir = some rootDir ∧ d.events = e0 :: rest := by
  unfold persistEvents at h
  cases hA : Abs fs env.outputDir with
  | none =>
    simp only [hA] at h
    exact absurd h (by rw [errorJSON_status]; decide)
  | some rootDir =>
    cases hE : d.events with
    | nil =>
      simp only [hA, hE] at h
      exact absurd h (by decide)
    | cons e0 rest => exact ⟨rootDir, e0, rest, rfl, rfl⟩

/-! ## The layout of an accepted batch -/

theorem writeBlob_ok_resolves (env : Env) (form : Form) (blobsDir : String) (fs fs1 : FS)
    (a : Attachment) (h : writeBlob env form blobsDir fs a = Except.ok fs1) :
    ∃ file rest dst, form.File (blobKey a) = some file :: rest ∧
      resolve fs (Join [blobsDir, a.ID.String]) = some dst := by
  rw [writeBlob_blobKey] at h
  split at h
  · cases h
  · cases h
  · rename_i file rest hf
    split at h
    · cases h
    · rename_i fs2 dst hcr
      exact ⟨file, rest, dst, hf, (Create_inv fs fs2 _ dst hcr).1⟩

theorem writeBlobs_ok_resolves (env : Env) (form : Form) (blobsDir : String) :
    ∀ (as : List Attachment) (fs fs2 : FS) (b : Attachment), b ∈ as →
      writeBlobs env form blobsDir as fs = Except.ok fs2 →
      ∃ file rest dst, form.File (blobKey b) = some file :: rest ∧
        resolve fs (Join [blobsDir, b.ID.String]) = some dst := by
  intro as
  induction as with
  | nil => intro _ _ b hb; simp at hb
  | cons a0 tl ih =>
    intro fs fs2 b hb hok
    unfold writeBlobs at hok
    cases hwb : writeBlob env form blobsDir fs a0 with
    | error e => rw [hwb] at hok; cases hok
    | ok fs1 =>
      rw [hwb] at hok
      simp only at hok
      rcases List.mem_cons.mp hb with hb0 | hb0
      · subst hb0
        exact writeBlob_ok_resolves env form blobsDir fs fs1 b hwb
      · have hfr := writeBlob_frame env form blobsDir fs a0
        rw [hwb] at hfr
        obtain ⟨file, rest, dst, hf, hd⟩ := ih fs1 fs2 b hb0 hok
        exact ⟨file, rest, dst, hf, by rw [← resolve_cwd fs fs1 _ hfr.1]; exact hd⟩

theorem writeEventBlobs_ok_resolves (env : Env) (form : Form) (blobsDir : String) :
    ∀ (evs : List EventField) (fs fs2 : FS) (b : Attachment), b ∈ allAttachments evs →
      writeEventBlobs env form blobsDir evs fs = Except.ok fs2 →
      ∃ file rest dst, form.File (blobKey b) = some file :: rest ∧
        resolve fs (Join [blobsDir, b.ID.String]) = some dst := by
  intro evs
  induction evs with
  | nil => intro _ _ b hb; simp [allAttachments] at hb
  | cons ev tl ih =>
    intro fs fs2 b hb hok
    have hall : allAttachments (ev :: tl) = ev.Attachments ++ allAttachments tl := by
      simp [allAttachments]
    rw [hall] at hb
    unfold writeEventBlobs at hok
    by_cases hl : ev.Attachments.length < 1
    · simp only [hl, if_true] at hok
      have hnil : ev.Attachments = [] := by
        cases hA : ev.Attachments with
        | nil => rfl
        | cons x xs => rw [hA] at hl; simp at hl
      rw [hnil, List.nil_append] at hb
      exact ih fs fs2 b hb hok
    · simp only [hl, if_false] at hok
      cases hwb : writeBlobs env form blobsDir ev.Attachments fs with
      | error e => rw [hwb] at hok; cases hok
      | ok fs1 =>
        rw [hwb] at hok
        simp only at hok
        rcases List.mem_append.mp hb with hb0 | hb0
        · exact writeBlobs_ok_resolves env form blobsDir ev.Attachments fs fs1 b hb0 hwb
        · have hfr := writeBlobs_frame env form blobsDir ev.Attachments fs
          rw [hwb] at hfr
          obtain ⟨file, rest, dst, hf, hd⟩ := ih fs1 fs2 b hb0 hok
          exact ⟨file, rest, dst, hf, by rw [← resolve_cwd fs fs1 _ hfr.1]; exact hd⟩

theorem persistEvents_accepted (env : Env) (reqId : String) (form : Form) (d : Decoded) (fs : FS)
    (h : (persistEvents env reqId form d fs).1.status = StatusAccepted) :
    ∃ rootDir e0 rest jsonBytes,
      Abs fs env.outputDir = some rootDir ∧ d.events = e0 :: rest ∧
      env.marshalRaw d.rawEvents = some jsonBytes ∧
      readFile (persistEvents env reqId form d fs).2 (eventFilePath rootDir e0 reqId) =
        some jsonBytes ∧
      (∀ a ∈ allAttachments d.events, ∃ file frest,
        form.File (blobKey a) = some file :: frest ∧
        readFile (persistEvents env reqId form d fs).2 (blobFilePath rootDir e0 a.ID) =
          some file.content) := by
  obtain ⟨rootDir, e0, rest, hAbs, hev⟩ := persistEvents_accepted_pre env reqId form d fs h
  refine ⟨rootDir, e0, rest, ?_⟩
  have h500 : ∀ r : Response, r.status = StatusInternalServerError → r.status ≠ StatusAccepted := by
    intro r hr
    rw [hr]
    decide
  rcases persistEvents_stages env reqId form d fs rootDir e0 rest hAbs hev with
    ⟨r, hr, hp⟩ | ⟨fs1, h1, hrest⟩
  · rw [hp] at h; exact absurd h (h500 r hr)
  · obtain ⟨hc1, _, _⟩ := ensureDir_inv env fs fs1 _ h1
    rcases hrest with ⟨r, hr, hp⟩ | ⟨jb, fs2, hm, hw, hrest⟩
    · rw [hp] at h; exact absurd h (h500 r hr)
    · obtain ⟨dst, hres, _, hc2, hl2, _⟩ := WriteFile_inv fs1 fs2 _ _ hw
      rcases hrest with ⟨r, hr, hp⟩ | ⟨fs3, h3, hrest⟩
      · rw [hp] at h; exact absurd h (h500 r hr)
      · have hk3 : fs3.cwd = fs2.cwd ∧ ∀ q n, lookup fs2 q = some n → lookup fs3 q = some n := by
          split_ifs at h3
          · obtain ⟨hc3, _, hkeep⟩ := ensureDir_inv env fs2 fs3 _ h3
            exact ⟨hc3, hkeep⟩
          · cases h3
            exact ⟨rfl, fun _ _ hn => hn⟩
        have hcw3 : fs3.cwd = fs.cwd := hk3.1.trans (hc2.trans hc1)
        rcases hrest with ⟨e, he, hp⟩ | ⟨fs4, h4, hp⟩
        · rw [hp] at h
          rcases writeEventBlobs_error env form _ _ _ e.1 e.2 he with ⟨key, hk⟩ | hk
          · rw [hk] at h; exact absurd h (by unfold noFileField; rw [errorJSON_status]; decide)
          · exact absurd h (h500 _ hk)
        · have F4 := writeEventBlobs_frame env form (blobsDirPath rootDir e0) d.events fs3
          rw [h4] at F4
          have hcw4 : fs4.cwd = fs.cwd := F4.1.trans hcw3
          refine ⟨jb, hAbs, hev, hm, ?_, ?_⟩
          · rw [hp]
            apply readFile_of_lookup _ _ dst
            · rw [resolve_cwd fs fs4 _ hcw4, ← resolve_cwd fs fs1 _ hc1]
              exact hres
            · have hl3 : lookup fs3 dst = some (Node.file jb) := hk3.2 dst _ hl2
              by_cases hc : lookup fs4 dst = lookup fs3 dst
              · rw [hc]; exact hl3
              · obtain ⟨a, _, _, ha3⟩ := F4.2 dst hc
                exfalso
                apply event_blob_disjoint fs3 (appDirPath rootDir e0) reqId
                  (blobsDirPath rootDir e0) a.ID dst
                · rw [resolve_cwd fs fs3 _ hcw3, ← resolve_cwd fs fs1 _ hc1]
                  exact hres
                · exact ha3
          · intro a ha
            obtain ⟨file, frest, dst1, hf, hr1⟩ :=
              writeEventBlobs_ok_resolves env form (blobsDirPath rootDir e0) d.events fs3 fs4 a
                ha h4
            refine ⟨file, frest, hf, ?_⟩
            rw [hp]
            apply readFile_of_lookup _ _ dst1
            · rw [resolve_cwd fs fs4 _ hcw4, ← resolve_cwd fs fs3 _ hcw3]
              exact hr1
            · exact writeEventBlobs_content env form (blobsDirPath rootDir e0) d.events fs3 fs4 h4
                a ha file frest dst1 hf hr1

/-- C9: on-disk layout of an event batch. For every accepted request to `writeEvent`,
with `rootDir` the absolute form of the configured output directory and `e0` the first
event of the batch, the file at `<rootDir>/<AppUniqueID>/<AppVersion>/<RequestID>.json`
holds the marshalled batch, the file at `<rootDir>/<AppUniqueID>/<AppVersion>/blobs/<ID>`
holds the bytes of the file part of every declared attachment, `AppUniqueID` and
`AppVersion` being those of `e0` alone, and nothing else changes except these files and
the directories leading to them. -/
theorem writeEvent_layout (env : Env) (req : Request) (fs : FS)
    (hacc : (writeEvent env req fs).1.status = StatusAccepted) :
    ∃ form evs e0 rest rootDir jsonBytes,
      req.MultipartForm = Except.ok form ∧
      List.Forall₂ (fun f ev => env.unmarshalEvent f = some ev) (form.Value "event") evs ∧
      evs = e0 :: rest ∧
      Abs fs env.outputDir = some rootDir ∧
      env.marshalRaw (form.Value "event") = some jsonBytes ∧
      readFile (writeEvent env req fs).2
        (eventFilePath rootDir e0 (req.HeaderGet reqIdKey)) = some jsonBytes ∧
      (∀ a ∈ allAttachments evs, ∃ file frest,
        form.File (blobKey a) = some file :: frest ∧
        readFile (writeEvent env req fs).2 (blobFilePath rootDir e0 a.ID) = some file.content) ∧
      Frame fs (writeEvent env req fs).2
        (Touched form fs rootDir e0 (req.HeaderGet reqIdKey) evs) := by
  cases he : expectedFailure env req with
  | some r =>
    rw [writeEvent_of_expectedFailure env req fs r he] at hacc
    rcases expectedFailure_status env req r he with h | h
    · rw [h] at hacc; exact absurd hacc (by decide)
    · rw [h] at hacc; exact absurd hacc (by decide)
  | none =>
    obtain ⟨form, d, hform, hd, hw⟩ := writeEvent_of_no_expectedFailure env req he
    rw [hw fs] at hacc ⊢
    obtain ⟨evs, hev, hraw, hf2, _⟩ := decodeLoop_ok_inv env _ _ _ hd
    simp only [List.nil_append] at hev hraw
    obtain ⟨rootDir, e0, rest, jb, hAbs, hde, hm, hread, hblobs⟩ :=
      persistEvents_accepted env (req.HeaderGet reqIdKey) form d fs hacc
    have hfr := persistEvents_frame env (req.HeaderGet reqIdKey) form d fs rootDir e0 rest hAbs hde
    rw [hev] at hde hblobs hfr
    rw [hraw] at hm
    exact ⟨form, evs, e0, rest, rootDir, jb, hform, hf2.imp (fun _ _ h => h.2.2), hde, hAbs, hm,
      hread, hblobs, hfr⟩

set_option maxRecDepth 100000 in
/-- Instance of C9: a batch of an event of `app1` with an attachment and an event of
`app2`, with the file part of the attachment. -/
theorem writeEvent_layout_witness :
    ∃ form evs e0 rest rootDir jsonBytes,
      (eventRequest [recBlobA, recOther]
        [("blob-11111111-1111-1111-1111-111111111111", ⟨"PNG", false, false⟩)]).MultipartForm =
        Except.ok form ∧
      List.Forall₂ (fun f ev => sampleEnv.unmarshalEvent f = some ev) (form.Value "event") evs ∧
      evs = e0 :: rest ∧
      Abs emptyFS sampleEnv.outputDir = some rootDir ∧
      sampleEnv.marshalRaw (form.Value "event") = some jsonBytes ∧
      readFile (writeEvent sampleEnv (eventRequest [recBlobA, recOther]
        [("blob-11111111-1111-1111-1111-111111111111", ⟨"PNG", false, false⟩)]) emptyFS).2
        (eventFilePath rootDir e0 ((eventRequest [recBlobA, recOther]
          [("blob-11111111-1111-1111-1111-111111111111",
            ⟨"PNG", false, false⟩)]).HeaderGet reqIdKey)) = some jsonBytes ∧
      (∀ a ∈ allAttachments evs, ∃ file frest,
        form.File (blobKey a) = some file :: frest ∧
        readFile (writeEvent sampleEnv (eventRequest [recBlobA, recOther]
          [("blob-11111111-1111-1111-1111-111111111111", ⟨"PNG", false, false⟩)]) emptyFS).2
          (blobFilePath rootDir e0 a.ID) = some file.content) ∧
      Frame emptyFS (writeEvent sampleEnv (eventRequest [recBlobA, recOther]
        [("blob-11111111-1111-1111-1111-111111111111", ⟨"PNG", false, false⟩)]) emptyFS).2
        (Touched form emptyFS rootDir e0 ((eventRequest [recBlobA, recOther]
          [("blob-11111111-1111-1111-1111-111111111111",
            ⟨"PNG", false, false⟩)]).HeaderGet reqIdKey) evs) :=
  writeEvent_layout sampleEnv (eventRequest [recBlobA, recOther]
    [("blob-11111111-1111-1111-1111-111111111111", ⟨"PNG", false, false⟩)]) emptyFS (by decide)

/-! ## A missing attachment part -/

theorem blob_loc_under (fs : FS) (rootDir : String) (e0 : EventField) (u : UUID) (A q : Loc)
    (hA : resolve fs (appDirPath rootDir e0) = some A)
    (hq : resolve fs (blobFilePath rootDir e0 u) = some q) :
    resolve fs (blobsDirPath rootDir e0) = some (A ++ ["blobs"]) ∧ q = A ++ ["blobs"] ++ [u.String] := by
  have hB : resolve fs (blobsDirPath rootDir e0) = some (A ++ ["blobs"]) :=
    resolve_Join_pair fs _ "blobs" (by unfold IsName; decide) (by unfold SlashFree; decide) A hA
  have hL := resolve_Join_pair fs (blobsDirPath rootDir e0) u.String (UUID_String_name u).1
    (UUID_String_name u).2.1 _ hB
  unfold blobFilePath at hq
  rw [hL] at hq
  exact ⟨hB, (Option.some.inj hq).symm⟩

theorem mem_inits_length {α : Type} : ∀ (l q : List α), q ∈ l.inits → q.length ≤ l.length
  | [], q, h => by
    simp at h
    rw [h]
  | a :: l, q, h => by
    simp only [List.inits_cons, List.mem_cons, List.mem_map] at h
    rcases h with h | ⟨t, ht, rfl⟩
    · rw [h]; simp
    · have := mem_inits_length l t ht
      simp only [List.length_cons]
      omega

/-! ## The blob loops when no filesystem step fails -/

theorem inits_snoc_dropLast {α : Type} (x : α) : ∀ (l : List α),
    (l ++ [x]).inits.dropLast = l.inits
  | [] => rfl
  | a :: l => by
    have ih := inits_snoc_dropLast x l
    have hne : (l ++ [x]).inits ≠ [] := by
      cases h : (l ++ [x]).inits with
      | nil =>
        have := congrArg List.length h
        simp at this
      | cons y ys => simp
    simp only [List.cons_append, List.inits_cons]
    rw [List.dropLast_cons_of_ne_nil (by simp), ← List.map_dropLast, ih]

theorem isDir_put_ne (fs : FS) (L q : Loc) (n : Node) (h : q ≠ L) :
    isDir (put fs L n) q = isDir fs q := by
  unfold isDir
  rw [lookup_put_ne fs L q n h]

theorem isDir_put_file (fs : FS) (L q : Loc) (data : String)
    (h : isDir (put fs L (Node.file data)) q = true) : isDir fs q = true := by
  by_cases hq : q = L
  · by_cases h0 : q = []
    · rw [h0]; rfl
    · unfold isDir at h
      rw [hq, lookup_put_self fs L _ (by rw [← hq]; exact h0)] at h
      simp at h
  · rw [isDir_put_ne fs L q _ hq] at h
    exact h

theorem writeBlob_ok_of_ready (env : Env) (form : Form) (blobsDir : String) (B : Loc) (fs : FS)
    (a : Attachment) (hp : hasPart form a = true)
    (hB : resolve fs blobsDir = some B)
    (hdirs : ∀ p ∈ B.inits, isDir fs p = true)
    (hfree : isDir fs (B ++ [a.ID.String]) = false)
    (hpart : ∀ file rest, form.File (blobKey a) = some file :: rest →
      file.openFails = false ∧ file.readFails = false) :
    ∃ fs1, writeBlob env form blobsDir fs a = Except.ok fs1 ∧ fs1.cwd = fs.cwd ∧
      (∀ p ∈ B.inits, isDir fs1 p = true) ∧ (∀ q, isDir fs1 q = true → isDir fs q = true) := by
  have hL : resolve fs (Join [blobsDir, a.ID.String]) = some (B ++ [a.ID.String]) :=
    resolve_Join_pair fs blobsDir a.ID.String (UUID_String_name a.ID).1
      (UUID_String_name a.ID).2.1 B hB
  have hcreate : Create fs (Join [blobsDir, a.ID.String]) =
      Except.ok (put fs (B ++ [a.ID.String]) (Node.file ""), B ++ [a.ID.String]) := by
    unfold Create
    rw [hL]
    simp only [hfree, Bool.false_eq_true, if_false]
    rw [inits_snoc_dropLast]
    have : B.inits.all (isDir fs) = true := List.all_eq_true.mpr hdirs
    simp only [this, if_true]
  obtain ⟨file, rest, hf, hcase⟩ := writeBlob_present env form blobsDir fs a hp
  obtain ⟨hopen, hread⟩ := hpart file rest hf
  have hw : writeBlob env form blobsDir fs a =
      Except.ok (put (put fs (B ++ [a.ID.String]) (Node.file "")) (B ++ [a.ID.String])
        (Node.file file.content)) := by
    rw [writeBlob_blobKey, hf]
    simp only [hcreate]
    have ho : file.Open = some file := by
      unfold FileHeader.Open
      simp [hopen]
    simp only [ho]
    unfold Copy writeTo
    simp [hread]
  have hlen : ∀ p ∈ B.inits, p ≠ B ++ [a.ID.String] := by
    intro p hp1 e
    have := mem_inits_length B p hp1
    rw [e] at this
    simp at this
  refine ⟨_, hw, rfl, ?_, ?_⟩
  · intro p hp1
    rw [isDir_put_ne _ _ _ _ (hlen p hp1), isDir_put_ne _ _ _ _ (hlen p hp1)]
    exact hdirs p hp1
  · intro q hq
    exact isDir_put_file fs _ q "" (isDir_put_file _ _ q _ hq)

theorem mem_takeWhile_append_left {α : Type} (p : α → Bool) (b : α) :
    ∀ (l1 l2 : List α), b ∈ l1.takeWhile p → b ∈ (l1 ++ l2).takeWhile p
  | [], _, h => by simp at h
  | x :: l1, l2, h => by
    simp only [List.cons_append, List.takeWhile_cons] at h ⊢
    cases hx : p x with
    | false => simp [hx] at h
    | true =>
      simp only [hx, if_true, List.mem_cons] at h ⊢
      rcases h with h | h
      · exact Or.inl h
      · exact Or.inr (mem_takeWhile_append_left p b l1 l2 h)

theorem mem_takeWhile_append_right {α : Type} (p : α → Bool) (b : α) :
    ∀ (l1 l2 : List α), l1.find? (fun x => !p x) = none → b ∈ l2.takeWhile p →
      b ∈ (l1 ++ l2).takeWhile p
  | [], _, _, h => h
  | x :: l1, l2, hf, h => by
    simp only [List.cons_append, List.takeWhile_cons]
    cases hx : p x with
    | false => simp [List.find?, hx] at hf
    | true =>
      simp only [if_true, List.mem_cons]
      have hf1 : l1.find? (fun x => !p x) = none := by
        simpa [List.find?, hx] using hf
      exact Or.inr (mem_takeWhile_append_right p b l1 l2 hf1 h)

theorem writeBlobs_run (env : Env) (form : Form) (blobsDir : String) (B : Loc) :
    ∀ (as : List Attachment) (fs : FS), resolve fs blobsDir = some B →
      (∀ p ∈ B.inits, isDir fs p = true) → PartsReady form B fs as →
      ∃ fs1, fs1.cwd = fs.cwd ∧ (∀ p ∈ B.inits, isDir fs1 p = true) ∧
        (∀ q, isDir fs1 q = true → isDir fs q = true) ∧
        writeBlobs env form blobsDir as fs =
          match firstMissing form as with
          | none => Except.ok fs1
          | some a => Except.error (noFileField env (blobKey a), fs1)
  | [], fs, _, hdirs, _ => ⟨fs, rfl, hdirs, fun _ h => h, rfl⟩
  | a :: rest, fs, hB, hdirs, hready => by
    unfold writeBlobs firstMissing
    cases hp : hasPart form a with
    | false =>
      rw [writeBlob_missing env form blobsDir fs a hp]
      refine ⟨fs, rfl, hdirs, fun _ h => h, ?_⟩
      simp [List.find?, hp]
    | true =>
      have hfm : List.find? (fun a => !hasPart form a) (a :: rest) =
          List.find? (fun a => !hasPart form a) rest := by
        simp [List.find?, hp]
      rw [hfm]
      have hmem : a ∈ (a :: rest).takeWhile (fun x => hasPart form x) := by
        simp [List.takeWhile_cons, hp]
      obtain ⟨hfree, hpart⟩ := hready a hmem
      obtain ⟨fs1, hw, hc1, hd1, hmono1⟩ :=
        writeBlob_ok_of_ready env form blobsDir B fs a hp hB hdirs hfree hpart
      rw [hw]
      simp only
      have hready1 : PartsReady form B fs1 rest := by
        intro b hb
        have hb1 : b ∈ (a :: rest).takeWhile (fun x => hasPart form x) := by
          simp only [List.takeWhile_cons, hp, if_true, List.mem_cons]
          exact Or.inr hb
        obtain ⟨hfb, hpb⟩ := hready b hb1
        refine ⟨?_, hpb⟩
        cases hd : isDir fs1 (B ++ [b.ID.String]) with
        | false => rfl
        | true => rw [hmono1 _ hd] at hfb; cases hfb
      obtain ⟨fs2, hc2, hd2, hmono2, hrun⟩ :=
        writeBlobs_run env form blobsDir B rest fs1 (by rw [resolve_cwd fs fs1 _ hc1]; exact hB)
          hd1 hready1
      exact ⟨fs2, hc2.trans hc1, hd2, fun q hq => hmono1 q (hmono2 q hq), hrun⟩

theorem writeEventBlobs_run (env : Env) (form : Form) (blobsDir : String) (B : Loc) :
    ∀ (evs : List EventField) (fs : FS), resolve fs blobsDir = some B →
      (∀ p ∈ B.inits, isDir fs p = true) → PartsReady form B fs (allAttachments evs) →
      ∃ fs1, fs1.cwd = fs.cwd ∧ (∀ p ∈ B.inits, isDir fs1 p = true) ∧
        (∀ q, isDir fs1 q = true → isDir fs q = true) ∧
        writeEventBlobs env form blobsDir evs fs =
          match firstMissing form (allAttachments evs) with
          | none => Except.ok fs1
          | some a => Except.error (noFileField env (blobKey a), fs1)
  | [], fs, _, hdirs, _ => ⟨fs, rfl, hdirs, fun _ h => h, rfl⟩
  | ev :: rest, fs, hB, hdirs, hready => by
    have hall : allAttachments (ev :: rest) = ev.Attachments ++ allAttachments rest := by
      simp [allAttachments]
    rw [hall, firstMissing_append]
    rw [hall] at hready
    unfold writeEventBlobs
    by_cases hl : ev.Attachments.length < 1
    · have hnil : ev.Attachments = [] := by
        cases hA : ev.Attachments with
        | nil => rfl
        | cons x xs => rw [hA] at hl; simp at hl
      simp only [hl, if_true, hnil]
      rw [hnil, List.nil_append] at hready
      exact writeEventBlobs_run env form blobsDir B rest fs hB hdirs hready
    · simp only [hl, if_false]
      have hready1 : PartsReady form B fs ev.Attachments := fun b hb =>
        hready b (mem_takeWhile_append_left _ b _ _ hb)
      obtain ⟨fs1, hc1, hd1, hmono1, hrun1⟩ :=
        writeBlobs_run env form blobsDir B ev.Attachments fs hB hdirs hready1
      rw [hrun1]
      cases hfm : firstMissing form ev.Attachments with
      | some a => exact ⟨fs1, hc1, hd1, hmono1, rfl⟩
      | none =>
        simp only
        have hready2 : PartsReady form B fs1 (allAttachments rest) := by
          intro b hb
          obtain ⟨hfb, hpb⟩ := hready b (mem_takeWhile_append_right _ b _ _ hfm hb)
          refine ⟨?_, hpb⟩
          cases hd : isDir fs1 (B ++ [b.ID.String]) with
          | false => rfl
          | true => rw [hmono1 _ hd] at hfb; cases hfb
        obtain ⟨fs2, hc2, hd2, hmono2, hrun2⟩ :=
          writeEventBlobs_run env form blobsDir B rest fs1
            (by rw [resolve_cwd fs fs1 _ hc1]; exact hB) hd1 hready2
        exact ⟨fs2, hc2.trans hc1, hd2, fun q hq => hmono1 q (hmono2 q hq), hrun2⟩

theorem hasBlob_of_attachment (env : Env) (fields : List String) (d : Decoded) (a : Attachment)
    (hdec : decodeLoop env fields ⟨[], [], false, 0⟩ = Except.ok d)
    (ha : a ∈ allAttachments d.events) : d.hasBlob = true := by
  obtain ⟨evs, hev, _, _, hblob⟩ := decodeLoop_ok_inv env _ _ _ hdec
  simp only [List.nil_append, Bool.false_or] at hev hblob
  rw [hblob, List.any_eq_true]
  rw [hev] at ha
  unfold allAttachments at ha
  obtain ⟨ev, hev1, hev2⟩ := List.mem_flatMap.mp ha
  refine ⟨ev, hev1, ?_⟩
  cases hA : ev.Attachments with
  | nil => rw [hA] at hev2; simp at hev2
  | cons x xs => simp

/-- C8, as amended: for every batch that passes the decoder checks and declares some
attachment without a file part, and assuming no filesystem failure (the output directory
has an absolute form, the application directory exists or is made, the batch is marshalled
and its file written, the `blobs` directory exists or is made and is a directory, and for
each attachment before the first one without a file part no directory stands at
`blobs/<ID>` and its part can be opened and read), `writeEvent` rejects the request with
the message naming the field `blob-<ID>` of the first declared attachment, in submission
order, that has no file part; and for every declared attachment without a file part the
location of `blobs/<ID>` is left as it was before the request. -/
theorem writeEvent_missing_attachment (env : Env) (req : Request) (fs fs1 fs2 fs3 : FS)
    (form : Form) (d : Decoded) (a : Attachment) (rootDir : String) (e0 : EventField)
    (rest : List EventField) (jsonBytes : String) (B : Loc)
    (hid : req.HeaderGet reqIdKey ≠ "")
    (huuid : env.uuidValidate (req.HeaderGet reqIdKey) = true)
    (hform : req.MultipartForm = Except.ok form)
    (hlen : ¬ (form.Value "event").length < 1)
    (hdec : decodeLoop env (form.Value "event") ⟨[], [], false, 0⟩ = Except.ok d)
    (hfirst : firstMissing form (allAttachments d.events) = some a)
    (hev : d.events = e0 :: rest)
    (hAbs : Abs fs env.outputDir = some rootDir)
    (hdir : ensureDir env fs (appDirPath rootDir e0) = Except.ok fs1)
    (hmarshal : env.marshalRaw (form.Value "event") = some jsonBytes)
    (hwrite : WriteFile fs1 (eventFilePath rootDir e0 (req.HeaderGet reqIdKey)) jsonBytes =
      Except.ok fs2)
    (hblobs : ensureDir env fs2 (blobsDirPath rootDir e0) = Except.ok fs3)
    (hB : resolve fs3 (blobsDirPath rootDir e0) = some B)
    (hBdirs : ∀ p ∈ B.inits, isDir fs3 p = true)
    (hready : PartsReady form B fs3 (allAttachments d.events)) :
    (writeEvent env req fs).1 = noFileField env (blobKey a) ∧
    ∀ b ∈ allAttachments d.events, hasPart form b = false →
      ∀ q, resolve fs (blobFilePath rootDir e0 b.ID) = some q →
        lookup (writeEvent env req fs).2 q = lookup fs q := by
  have hw : writeEvent env req fs = persistEvents env (req.HeaderGet reqIdKey) form d fs := by
    unfold writeEvent
    simp only [hid, huuid, hform, hlen, if_false, hdec, Bool.true_eq_false]
  rw [hw]
  constructor
  · have hraw : d.rawEvents = form.Value "event" := by
      obtain ⟨_, _, hr, _, _⟩ := decodeLoop_ok_inv env _ _ _ hdec
      simpa using hr
    have hblob : d.hasBlob = true :=
      hasBlob_of_attachment env _ d a hdec (List.mem_of_find?_eq_some hfirst)
    obtain ⟨fs4, _, _, _, hrun⟩ :=
      writeEventBlobs_run env form (blobsDirPath rootDir e0) B d.events fs3 hB hBdirs hready
    rw [hfirst] at hrun
    simp only at hrun
    rw [hev] at hrun
    unfold persistEvents
    simp only [hAbs, hev]
    have hdir1 : ensureDir env fs (Join [rootDir, e0.Attribute.AppUniqueID,
        e0.Attribute.AppVersion]) = Except.ok fs1 := hdir
    have hwrite1 : WriteFile fs1 (Join [Join [rootDir, e0.Attribute.AppUniqueID,
        e0.Attribute.AppVersion], req.HeaderGet reqIdKey ++ ".json"]) jsonBytes =
        Except.ok fs2 := hwrite
    have hblobs1 : ensureDir env fs2 (Join [Join [rootDir, e0.Attribute.AppUniqueID,
        e0.Attribute.AppVersion], "blobs"]) = Except.ok fs3 := hblobs
    have hrun1 : writeEventBlobs env form (Join [Join [rootDir, e0.Attribute.AppUniqueID,
        e0.Attribute.AppVersion], "blobs"]) (e0 :: rest) fs3 =
        Except.error (noFileField env (blobKey a), fs4) := hrun
    simp only [hdir1, hraw, hmarshal, hwrite1, hblob, if_true, hblobs1, hrun1]
  · intro b hb hpb q hq
    have hfr := persistEvents_frame env (req.HeaderGet reqIdKey) form d fs rootDir e0 rest hAbs hev
    by_contra hne
    rcases hfr.2 q hne with ⟨A, hAr, hin⟩ | ⟨B1, hBr, hin⟩ | hevt | ⟨a1, _, hp1, hr1⟩
    · obtain ⟨_, hqA⟩ := blob_loc_under fs rootDir e0 b.ID A q hAr hq
      have := mem_inits_length A q hin
      rw [hqA] at this
      simp only [List.length_append, List.length_cons, List.length_nil] at this
      omega
    · cases hAr : resolve fs (appDirPath rootDir e0) with
      | none =>
        have hne0 : appDirPath rootDir e0 ≠ "" := by
          intro e
          unfold blobsDirPath at hBr
          rw [e, Join_empty_cons] at hBr
          unfold blobFilePath blobsDirPath at hq
          rw [e, Join_empty_cons] at hq
          have hL := resolve_Join_pair fs (Join ["blobs"]) b.ID.String (UUID_String_name b.ID).1
            (UUID_String_name b.ID).2.1 B1 hBr
          rw [hL] at hq
          have hqB := (Option.some.inj hq).symm
          have := mem_inits_length B1 q hin
          rw [hqB] at this
          simp only [List.length_append, List.length_cons, List.length_nil] at this
          omega
        unfold blobsDirPath at hBr
        rw [resolve_Join fs _ _ hne0, hAr] at hBr
        cases hBr
      | some A =>
        obtain ⟨hB2, hqA⟩ := blob_loc_under fs rootDir e0 b.ID A q hAr hq
        rw [hB2] at hBr
        have hBA := (Option.some.inj hBr).symm
        have := mem_inits_length B1 q hin
        rw [hqA, hBA] at this
        simp only [List.length_append, List.length_cons, List.length_nil] at this
        omega
    · exact event_blob_disjoint fs (appDirPath rootDir e0) (req.HeaderGet reqIdKey)
        (blobsDirPath rootDir e0) b.ID q hevt hq
    · have hs : b.ID.String = a1.ID.String :=
        blob_loc_inj fs (blobsDirPath rootDir e0) b.ID a1.ID q hq hr1
      have hk : blobKey b = blobKey a1 := by unfold blobKey; rw [hs]
      unfold hasPart at hpb hp1
      rw [hk] at hpb
      rw [hpb] at hp1
      cases hp1

set_option maxRecDepth 100000 in
/-- Instance of the amended C8: an event declaring two attachments, with the file part
of the first one only, sent to an empty filesystem. -/
theorem writeEvent_missing_attachment_witness :
    (writeEvent sampleEnv (eventRequest [recBlobAB]
      [("blob-11111111-1111-1111-1111-111111111111", ⟨"PNG", false, false⟩)]) emptyFS).1 =
      noFileField sampleEnv "blob-22222222-2222-2222-2222-222222222222" ∧
    lookup (writeEvent sampleEnv (eventRequest [recBlobAB]
      [("blob-11111111-1111-1111-1111-111111111111", ⟨"PNG", false, false⟩)]) emptyFS).2
      ["srv", "session-data", "app1", "1.0", "blobs", "22222222-2222-2222-2222-222222222222"] =
      none :=
  have h := writeEvent_missing_attachment sampleEnv (eventRequest [recBlobAB]
    [("blob-11111111-1111-1111-1111-111111111111", ⟨"PNG", false, false⟩)]) emptyFS
    ⟨some "/srv/sessionator",
      [(["srv", "session-data", "app1", "1.0"], Node.dir),
        (["srv", "session-data", "app1"], Node.dir),
        (["srv", "session-data"], Node.dir),
        (["srv"], Node.dir)]⟩
    ⟨some "/srv/sessionator",
      [(["srv", "session-data", "app1", "1.0", "3fae0d6c-9b1e-4c6e-8f0a-5d2b7c9e1a34.json"],
          Node.file ("[" ++ recBlobAB ++ "]")),
        (["srv", "session-data", "app1", "1.0"], Node.dir),
        (["srv", "session-data", "app1"], Node.dir),
        (["srv", "session-data"], Node.dir),
        (["srv"], Node.dir)]⟩
    ⟨some "/srv/sessionator",
      [(["srv", "session-data", "app1", "1.0", "blobs"], Node.dir),
        (["srv", "session-data", "app1", "1.0", "3fae0d6c-9b1e-4c6e-8f0a-5d2b7c9e1a34.json"],
          Node.file ("[" ++ recBlobAB ++ "]")),
        (["srv", "session-data", "app1", "1.0"], Node.dir),
        (["srv", "session-data", "app1"], Node.dir),
        (["srv", "session-data"], Node.dir),
        (["srv"], Node.dir)]⟩
    (eventForm [recBlobAB]
      [("blob-11111111-1111-1111-1111-111111111111", ⟨"PNG", false, false⟩)])
    ⟨[⟨⟨"app1", "1.0"⟩, [⟨sampleBlobA⟩, ⟨sampleBlobB⟩]⟩], [recBlobAB], true, 2⟩ ⟨sampleBlobB⟩
    "/srv/session-data" ⟨⟨"app1", "1.0"⟩, [⟨sampleBlobA⟩, ⟨sampleBlobB⟩]⟩ []
    ("[" ++ recBlobAB ++ "]") ["srv", "session-data", "app1", "1.0", "blobs"]
    (by decide) (by decide) rfl (by decide) (by rfl) (by rfl) rfl (by decide) (by decide)
    (by decide) (by decide) (by decide) (by decide) (by decide)
    (fun b hb => by
      have htw : (allAttachments [(⟨⟨"app1", "1.0"⟩, [⟨sampleBlobA⟩, ⟨sampleBlobB⟩]⟩ :
          EventField)]).takeWhile (fun x => hasPart (eventForm [recBlobAB]
            [("blob-11111111-1111-1111-1111-111111111111", ⟨"PNG", false, false⟩)]) x) =
          [⟨sampleBlobA⟩] := by rfl
      have hb1 : b ∈ [(⟨sampleBlobA⟩ : Attachment)] := by rw [← htw]; exact hb
      have hb2 : b = ⟨sampleBlobA⟩ := by simpa using hb1
      subst hb2
      refine ⟨by decide, fun file frest hf => ?_⟩
      have hf1 : [some (⟨"PNG", false, false⟩ : FileHeader)] = some file :: frest := hf
      simp only [List.cons.injEq, Option.some.injEq] at hf1
      rw [← hf1.1]
      exact ⟨rfl, rfl⟩)
  ⟨h.1, h.2 ⟨sampleBlobB⟩ (by simp [allAttachments]) (by rfl)
    ["srv", "session-data", "app1", "1.0", "blobs", "22222222-2222-2222-2222-222222222222"]
    (by decide)⟩

set_option maxRecDepth 100000 in
/-- C8, refuted as stated: an event declares the attachments `1111…` and `2222…`, the
form has a file part for neither; the response names `blob-1111…` and not `blob-2222…`. -/
theorem missing_attachment_names_first_counterexample :
    sampleEnv.unmarshalEvent recBlobAB = some ⟨⟨"app1", "1.0"⟩, [⟨sampleBlobA⟩, ⟨sampleBlobB⟩]⟩ ∧
    sampleBlobB.String = "22222222-2222-2222-2222-222222222222" ∧
    (eventForm [recBlobAB] []).File "blob-22222222-2222-2222-2222-222222222222" = [] ∧
    (writeEvent sampleEnv (eventRequest [recBlobAB] []) emptyFS).1 =
      noFileField sampleEnv "blob-11111111-1111-1111-1111-111111111111" ∧
    (writeEvent sampleEnv (eventRequest [recBlobAB] []) emptyFS).1 ≠
      noFileField sampleEnv "blob-22222222-2222-2222-2222-222222222222" :=
  ⟨rfl, by decide, rfl, by decide, by decide⟩

end Sessionator
